import Mathlib

/-!
Verification of the Nano-Language interpreter (src/nano.py).

The development shallowly embeds the interpreter:
  * `Value` is the tagged union of runtime values (int, float, bool, string,
    none); Python floats are modelled as exact rationals.
  * `evalST` embeds the `SafeEval` AST visitor of `asteval`; the variable
    environment is threaded through evaluation so that the absence of
    mutation is a theorem rather than a modelling artifact.
  * `parseExprText` embeds `ast.parse(expr, mode="eval")` restricted to the
    grammar the visitor supports (literals, names, binary arithmetic,
    comparison chains, unary sign, and the unsupported node kinds that the
    visitor rejects at evaluation time).
  * `St` is the interpreter state (the module-level globals of nano.py plus
    the observable output and the input stream); `interpretLine` embeds
    `interpret_line`, `runLines` the loop of `run_minipy`.
Non-termination of the source `while` loop is handled by a fuel parameter;
an uncaught Python exception (the evaluator failing inside the `while`
condition re-check, which `interpret_line` does not guard) is modelled by
the `Res.crash` outcome.
-/

namespace Nano

/-- Runtime values of the interpreted language. Python floats are modelled
as exact rationals; `vnone` models the constant `None`. -/
inductive Value where
  | vint (n : Int)
  | vfloat (q : Rat)
  | vbool (b : Bool)
  | vstr (s : String)
  | vnone
  deriving DecidableEq

/-- Python truthiness, as used by `while asteval(...)` and
`if current_condition`. -/
def truthy : Value → Bool
  | .vint n => n ≠ 0
  | .vfloat q => q ≠ 0
  | .vbool b => b
  | .vstr s => s ≠ ""
  | .vnone => false

/-- Values that Python treats as integers for arithmetic (int and bool). -/
def intLike? : Value → Option Int
  | .vint n => some n
  | .vbool b => some (if b then 1 else 0)
  | _ => none

/-- Numeric view of a value (int, float and bool are numbers). -/
def numQ? : Value → Option Rat
  | .vint n => some (n : Rat)
  | .vfloat q => some q
  | .vbool b => some (if b then 1 else 0)
  | _ => none

/-- Python `==` on the supported values: numbers compare numerically
(so `1 == 1.0` and `True == 1`), strings compare as strings, values of
unrelated kinds are unequal. -/
def pyEqB (a b : Value) : Bool :=
  match numQ? a, numQ? b with
  | some x, some y => x = y
  | _, _ =>
    match a, b with
    | .vstr s, .vstr t => s = t
    | .vnone, .vnone => true
    | _, _ => false

/-- Python `+`: int-like operands give an int, numeric operands give a
float, strings concatenate; anything else is a TypeError. -/
def pyAdd (a b : Value) : Except String Value :=
  match intLike? a, intLike? b with
  | some x, some y => .ok (.vint (x + y))
  | _, _ =>
    match numQ? a, numQ? b with
    | some x, some y => .ok (.vfloat (x + y))
    | _, _ =>
      match a, b with
      | .vstr s, .vstr t => .ok (.vstr (s ++ t))
      | _, _ => .error "unsupported operand type(s) for +"

/-- Python `-` on values. -/
def pySub (a b : Value) : Except String Value :=
  match intLike? a, intLike? b with
  | some x, some y => .ok (.vint (x - y))
  | _, _ =>
    match numQ? a, numQ? b with
    | some x, some y => .ok (.vfloat (x - y))
    | _, _ => .error "unsupported operand type(s) for -"

/-- String repetition, as in Python `"ab" * 3`. -/
def strRepeat (s : String) (k : Int) : String :=
  String.join (List.replicate k.toNat s)

/-- Python `*` on values (numbers multiply, a string times an int-like
value repeats the string). -/
def pyMult (a b : Value) : Except String Value :=
  match intLike? a, intLike? b with
  | some x, some y => .ok (.vint (x * y))
  | _, _ =>
    match numQ? a, numQ? b with
    | some x, some y => .ok (.vfloat (x * y))
    | _, _ =>
      match a, b with
      | .vstr s, t =>
        match intLike? t with
        | some k => .ok (.vstr (strRepeat s k))
        | none => .error "unsupported operand type(s) for *"
      | s, .vstr t =>
        match intLike? s with
        | some k => .ok (.vstr (strRepeat t k))
        | none => .error "unsupported operand type(s) for *"
      | _, _ => .error "unsupported operand type(s) for *"

/-- Python `/` on values: true division, always producing a float. -/
def pyDiv (a b : Value) : Except String Value :=
  match numQ? a, numQ? b with
  | some x, some y =>
    if y = 0 then .error "division by zero" else .ok (.vfloat (x / y))
  | _, _ => .error "unsupported operand type(s) for /"

/-- Python `%` on numbers: the result carries the sign of the divisor
(floor-style modulo). String formatting is outside the modelled fragment
and is mapped to an evaluation failure. -/
def pyMod (a b : Value) : Except String Value :=
  match intLike? a, intLike? b with
  | some x, some y =>
    if y = 0 then .error "integer modulo by zero"
    else .ok (.vint (Int.fmod x y))
  | _, _ =>
    match numQ? a, numQ? b with
    | some x, some y =>
      if y = 0 then .error "float modulo by zero"
      else .ok (.vfloat (x - y * (Rat.floor (x / y) : Int)))
    | _, _ => .error "unsupported operand type(s) for %"

/-- Lexicographic order on code points, Python string comparison. -/
def lexLt : List Char → List Char → Bool
  | [], [] => false
  | [], _ :: _ => true
  | _ :: _, [] => false
  | a :: as, b :: bs => if a < b then true else if b < a then false else lexLt as bs

/-- Binary operator node kinds of the whitelist (plus representative
kinds that `ast.parse` accepts but the visitor rejects). -/
inductive BKind where
  | add | sub | mult | div | mod | pow | floordiv
  deriving DecidableEq

/-- Comparison operator node kinds of the whitelist. -/
inductive CKind where
  | gt | lt | eq | ne | ge | le
  deriving DecidableEq

/-- Unary operator node kinds (`not` is parsed but unsupported). -/
inductive UKind where
  | uadd | usub | unot
  deriving DecidableEq

/-- The dispatch table of `visit_BinOp`: a `dict.get` with an
`unsupported` default, applied after both operands are evaluated. -/
def pyBin : BKind → Value → Value → Except String Value
  | .add, a, b => pyAdd a b
  | .sub, a, b => pySub a b
  | .mult, a, b => pyMult a b
  | .div, a, b => pyDiv a b
  | .mod, a, b => pyMod a b
  | _, _, _ => .error "Unsupported operator or expression"

/-- Ordered comparison on rationals per comparison kind. -/
def cmpQ : CKind → Rat → Rat → Bool
  | .gt, x, y => y < x
  | .lt, x, y => x < y
  | .ge, x, y => y ≤ x
  | .le, x, y => x ≤ y
  | .eq, x, y => x = y
  | .ne, x, y => x ≠ y

/-- Ordered comparison on strings per comparison kind. -/
def cmpStr : CKind → String → String → Bool
  | .gt, s, t => lexLt t.data s.data
  | .lt, s, t => lexLt s.data t.data
  | .ge, s, t => !lexLt s.data t.data
  | .le, s, t => !lexLt t.data s.data
  | .eq, s, t => s = t
  | .ne, s, t => s ≠ t

/-- The dispatch table of `visit_Compare`: equality works across kinds,
ordered comparisons work on two numbers or two strings and are a
TypeError otherwise. -/
def pyCmp : CKind → Value → Value → Except String Value
  | .eq, a, b => .ok (.vbool (pyEqB a b))
  | .ne, a, b => .ok (.vbool (!pyEqB a b))
  | op, a, b =>
    match numQ? a, numQ? b with
    | some x, some y => .ok (.vbool (cmpQ op x y))
    | _, _ =>
      match a, b with
      | .vstr s, .vstr t => .ok (.vbool (cmpStr op s t))
      | _, _ => .error "comparison not supported between instances"

/-- The dispatch table of `visit_UnaryOp` (`+x`, `-x`; `not` falls to the
`unsupported` default). -/
def pyUn : UKind → Value → Except String Value
  | .uadd, v =>
    match intLike? v with
    | some x => .ok (.vint x)
    | none =>
      match v with
      | .vfloat q => .ok (.vfloat q)
      | _ => .error "bad operand type for unary +"
  | .usub, v =>
    match intLike? v with
    | some x => .ok (.vint (-x))
    | none =>
      match v with
      | .vfloat q => .ok (.vfloat (-q))
      | _ => .error "bad operand type for unary -"
  | .unot, _ => .error "Unsupported operator or expression"

/-- Expression syntax trees, the fragment of the Python `ast` node kinds
reachable through `ast.parse(expr, mode="eval")` that the visitor
distinguishes. A comparison keeps the full operator and comparator lists
of the `ast.Compare` node (the first comparator is stored explicitly,
matching the grammar invariant that a comparison has at least one);
`boolop` and `call` stand for node kinds handled by `generic_visit`. -/
inductive Expr where
  | const (v : Value)
  | name (id : String)
  | binop (op : BKind) (l : Expr) (r : Expr)
  | compare (l : Expr) (ops : List CKind) (c0 : Expr) (rest : List Expr)
  | unaryop (op : UKind) (e : Expr)
  | boolop
  | call

/-- Environment of the interpreter: the `variables` dict. -/
abbrev Env := List (String × Value)

/-- Dict lookup, `variables[name]` guarded by `name in variables`. -/
def lookupVar : Env → String → Option Value
  | [], _ => none
  | (k, v) :: rest, id => if k = id then some v else lookupVar rest id

/-- Dict store, `variables[name] = value` (overwrites a prior binding). -/
def setVar : Env → String → Value → Env
  | [], k, v => [(k, v)]
  | (k1, v1) :: rest, k, v =>
    if k1 = k then (k, v) :: rest else (k1, v1) :: setVar rest k v

/-- The `SafeEval` visitor of `asteval`. The environment is threaded
through the traversal (the visitor closes over the mutable `variables`
dict, so the embedding keeps the dict explicit on both sides to make the
absence of mutation provable). `visit_Compare` evaluates `node.left` and
`node.comparators[0]` only, then dispatches on `node.ops[0]`. -/
def evalST : Expr → Env → (Except String Value) × Env
  | .const v, env => (.ok v, env)
  | .name id, env =>
    (match lookupVar env id with
     | some v => .ok v
     | none => .error ("Variable \x27" ++ id ++ "\x27 is not defined"), env)
  | .binop op l r, env =>
    match evalST l env with
    | (.ok lv, env1) =>
      (match evalST r env1 with
       | (.ok rv, env2) => (pyBin op lv rv, env2)
       | (.error m, env2) => (.error m, env2))
    | (.error m, env1) => (.error m, env1)
  | .compare l ops c0 _, env =>
    match evalST l env with
    | (.ok lv, env1) =>
      (match evalST c0 env1 with
       | (.ok rv, env2) =>
         (match ops with
          | op :: _ => (pyCmp op lv rv, env2)
          | [] => (.error "list index out of range", env2))
       | (.error m, env2) => (.error m, env2))
    | (.error m, env1) => (.error m, env1)
  | .unaryop op e, env =>
    match evalST e env with
    | (.ok v, env1) => (pyUn op v, env1)
    | (.error m, env1) => (.error m, env1)
  | .boolop, env => (.error "Unsupported expression: BoolOp", env)
  | .call, env => (.error "Unsupported expression: Call", env)

/-- Tokens of the expression lexer. -/
inductive Tok where
  | tnum (v : Value)
  | tstr (s : String)
  | tname (s : String)
  | tsym (s : String)
  deriving DecidableEq

/-- Numeric value of a list of decimal digits. -/
def natOfDigits (ds : List Char) : Nat :=
  ds.foldl (fun a c => a * 10 + (c.toNat - 48)) 0

/-- Rational value of a float literal with integer part `ds` and
fractional digits `fs`. -/
def mkFloatLit (ds fs : List Char) : Rat :=
  (natOfDigits ds : Rat) + (natOfDigits fs : Rat) / ((10 : Rat) ^ fs.length)

/-- The single-quote character, kept out of string literals. -/
def qChar : Char := Char.ofNat 39

/-- The double-quote character. -/
def dqChar : Char := Char.ofNat 34

/-- Identifier start characters. -/
def isIdentStart (c : Char) : Bool := c.isAlpha || c = '_'

/-- Identifier continuation characters. -/
def isIdentChar (c : Char) : Bool := c.isAlphanum || c = '_'

/-- Lexer for the expression grammar (fueled; the fuel passed by
`parseExprText` always suffices since every step consumes a character). -/
def lexChars : Nat → List Char → Except String (List Tok)
  | 0, _ => .error "invalid syntax"
  | _, [] => .ok []
  | f + 1, c :: cs =>
    if c.isWhitespace then lexChars f cs
    else if c.isDigit then
      let ds := c :: cs.takeWhile Char.isDigit
      let rest := cs.dropWhile Char.isDigit
      match rest with
      | '.' :: r2 =>
        let fs := r2.takeWhile Char.isDigit
        let r3 := r2.dropWhile Char.isDigit
        match lexChars f r3 with
        | .ok toks => .ok (.tnum (.vfloat (mkFloatLit ds fs)) :: toks)
        | .error m => .error m
      | _ =>
        match lexChars f rest with
        | .ok toks => .ok (.tnum (.vint (Int.ofNat (natOfDigits ds))) :: toks)
        | .error m => .error m
    else if c = '.' then
      match cs with
      | d :: _ =>
        if d.isDigit then
          let fs := cs.takeWhile Char.isDigit
          let r3 := cs.dropWhile Char.isDigit
          match lexChars f r3 with
          | .ok toks => .ok (.tnum (.vfloat (mkFloatLit [] fs)) :: toks)
          | .error m => .error m
        else .error "invalid syntax"
      | [] => .error "invalid syntax"
    else if isIdentStart c then
      let ident := c :: cs.takeWhile isIdentChar
      let rest := cs.dropWhile isIdentChar
      match lexChars f rest with
      | .ok toks => .ok (.tname (String.mk ident) :: toks)
      | .error m => .error m
    else if c = dqChar || c = qChar then
      let body := cs.takeWhile (fun ch => ch ≠ c)
      match cs.dropWhile (fun ch => ch ≠ c) with
      | _ :: rest2 =>
        match lexChars f rest2 with
        | .ok toks => .ok (.tstr (String.mk body) :: toks)
        | .error m => .error m
      | [] => .error "unterminated string literal"
    else if c = '<' then
      match cs with
      | '=' :: r =>
        match lexChars f r with
        | .ok toks => .ok (.tsym "<=" :: toks)
        | .error m => .error m
      | _ =>
        match lexChars f cs with
        | .ok toks => .ok (.tsym "<" :: toks)
        | .error m => .error m
    else if c = '>' then
      match cs with
      | '=' :: r =>
        match lexChars f r with
        | .ok toks => .ok (.tsym ">=" :: toks)
        | .error m => .error m
      | _ =>
        match lexChars f cs with
        | .ok toks => .ok (.tsym ">" :: toks)
        | .error m => .error m
    else if c = '=' then
      match cs with
      | '=' :: r =>
        match lexChars f r with
        | .ok toks => .ok (.tsym "==" :: toks)
        | .error m => .error m
      | _ => .error "invalid syntax"
    else if c = '!' then
      match cs with
      | '=' :: r =>
        match lexChars f r with
        | .ok toks => .ok (.tsym "!=" :: toks)
        | .error m => .error m
      | _ => .error "invalid syntax"
    else if c = '*' then
      match cs with
      | '*' :: r =>
        match lexChars f r with
        | .ok toks => .ok (.tsym "**" :: toks)
        | .error m => .error m
      | _ =>
        match lexChars f cs with
        | .ok toks => .ok (.tsym "*" :: toks)
        | .error m => .error m
    else if c = '/' then
      match cs with
      | '/' :: r =>
        match lexChars f r with
        | .ok toks => .ok (.tsym "//" :: toks)
        | .error m => .error m
      | _ =>
        match lexChars f cs with
        | .ok toks => .ok (.tsym "/" :: toks)
        | .error m => .error m
    else if c = '+' || c = '-' || c = '%' || c = '(' || c = ')' then
      match lexChars f cs with
      | .ok toks => .ok (.tsym (String.mk [c]) :: toks)
      | .error m => .error m
    else .error "invalid character in expression"

mutual

/-- Atoms: literals, names, parenthesised expressions. -/
def parseAtom : Nat → List Tok → Except String (Expr × List Tok)
  | 0, _ => .error "invalid syntax"
  | f + 1, ts =>
    match ts with
    | .tnum v :: rest => .ok (.const v, rest)
    | .tstr s :: rest => .ok (.const (.vstr s), rest)
    | .tname "True" :: rest => .ok (.const (.vbool true), rest)
    | .tname "False" :: rest => .ok (.const (.vbool false), rest)
    | .tname "None" :: rest => .ok (.const .vnone, rest)
    | .tname "and" :: _ => .error "invalid syntax"
    | .tname "or" :: _ => .error "invalid syntax"
    | .tname "not" :: _ => .error "invalid syntax"
    | .tname id :: rest => .ok (.name id, rest)
    | .tsym "(" :: rest =>
      match parseBool f rest with
      | .ok (e, .tsym ")" :: rest2) => .ok (e, rest2)
      | .ok _ => .error "invalid syntax"
      | .error m => .error m
    | _ => .error "invalid syntax"

/-- Unary layer (`+x`, `-x`, `not x`). -/
def parseUn : Nat → List Tok → Except String (Expr × List Tok)
  | 0, _ => .error "invalid syntax"
  | f + 1, ts =>
    match ts with
    | .tsym "+" :: rest =>
      match parseUn f rest with
      | .ok (e, r) => .ok (.unaryop .uadd e, r)
      | .error m => .error m
    | .tsym "-" :: rest =>
      match parseUn f rest with
      | .ok (e, r) => .ok (.unaryop .usub e, r)
      | .error m => .error m
    | .tname "not" :: rest =>
      match parseUn f rest with
      | .ok (e, r) => .ok (.unaryop .unot e, r)
      | .error m => .error m
    | _ => parseAtom f ts

/-- Multiplicative layer. -/
def parseTerm : Nat → List Tok → Except String (Expr × List Tok)
  | 0, _ => .error "invalid syntax"
  | f + 1, ts =>
    match parseUn f ts with
    | .ok (e, r) => parseTermLoop f e r
    | .error m => .error m

/-- Left-associated chain of `* / % // **`. -/
def parseTermLoop : Nat → Expr → List Tok → Except String (Expr × List Tok)
  | 0, _, _ => .error "invalid syntax"
  | f + 1, acc, ts =>
    match ts with
    | .tsym "*" :: rest =>
      match parseUn f rest with
      | .ok (e, r) => parseTermLoop f (.binop .mult acc e) r
      | .error m => .error m
    | .tsym "/" :: rest =>
      match parseUn f rest with
      | .ok (e, r) => parseTermLoop f (.binop .div acc e) r
      | .error m => .error m
    | .tsym "%" :: rest =>
      match parseUn f rest with
      | .ok (e, r) => parseTermLoop f (.binop .mod acc e) r
      | .error m => .error m
    | .tsym "//" :: rest =>
      match parseUn f rest with
      | .ok (e, r) => parseTermLoop f (.binop .floordiv acc e) r
      | .error m => .error m
    | .tsym "**" :: rest =>
      match parseUn f rest with
      | .ok (e, r) => parseTermLoop f (.binop .pow acc e) r
      | .error m => .error m
    | _ => .ok (acc, ts)

/-- Additive layer. -/
def parseArith : Nat → List Tok → Except String (Expr × List Tok)
  | 0, _ => .error "invalid syntax"
  | f + 1, ts =>
    match parseTerm f ts with
    | .ok (e, r) => parseArithLoop f e r
    | .error m => .error m

/-- Left-associated chain of `+ -`. -/
def parseArithLoop : Nat → Expr → List Tok → Except String (Expr × List Tok)
  | 0, _, _ => .error "invalid syntax"
  | f + 1, acc, ts =>
    match ts with
    | .tsym "+" :: rest =>
      match parseTerm f rest with
      | .ok (e, r) => parseArithLoop f (.binop .add acc e) r
      | .error m => .error m
    | .tsym "-" :: rest =>
      match parseTerm f rest with
      | .ok (e, r) => parseArithLoop f (.binop .sub acc e) r
      | .error m => .error m
    | _ => .ok (acc, ts)

/-- Comparison layer: a chain `a < b <= c` becomes one `Compare` node
with operator and comparator lists, as in the Python `ast`. -/
def parseCmp : Nat → List Tok → Except String (Expr × List Tok)
  | 0, _ => .error "invalid syntax"
  | f + 1, ts =>
    match parseArith f ts with
    | .ok (e, r) => parseCmpLoop f e [] [] r
    | .error m => .error m

/-- Accumulates the operator/comparator lists of a comparison chain. -/
def parseCmpLoop : Nat → Expr → List CKind → List Expr → List Tok →
    Except String (Expr × List Tok)
  | 0, _, _, _, _ => .error "invalid syntax"
  | f + 1, left, ops, comps, ts =>
    let step (op : CKind) (rest : List Tok) :
        Except String (Expr × List Tok) :=
      match parseArith f rest with
      | .ok (e, r) => parseCmpLoop f left (ops ++ [op]) (comps ++ [e]) r
      | .error m => .error m
    match ts with
    | .tsym "<" :: rest => step .lt rest
    | .tsym ">" :: rest => step .gt rest
    | .tsym "<=" :: rest => step .le rest
    | .tsym ">=" :: rest => step .ge rest
    | .tsym "==" :: rest => step .eq rest
    | .tsym "!=" :: rest => step .ne rest
    | _ =>
      match comps with
      | [] => .ok (left, ts)
      | c0 :: cr => .ok (.compare left ops c0 cr, ts)

/-- Boolean layer: `and` / `or` produce a `BoolOp` node, which the
visitor rejects via `generic_visit`. -/
def parseBool : Nat → List Tok → Except String (Expr × List Tok)
  | 0, _ => .error "invalid syntax"
  | f + 1, ts =>
    match parseCmp f ts with
    | .ok (e, r) => parseBoolLoop f e r
    | .error m => .error m

/-- Consumes an `and`/`or` chain. -/
def parseBoolLoop : Nat → Expr → List Tok → Except String (Expr × List Tok)
  | 0, _, _ => .error "invalid syntax"
  | f + 1, acc, ts =>
    match ts with
    | .tname "and" :: rest =>
      match parseCmp f rest with
      | .ok (_, r) => parseBoolLoop f .boolop r
      | .error m => .error m
    | .tname "or" :: rest =>
      match parseCmp f rest with
      | .ok (_, r) => parseBoolLoop f .boolop r
      | .error m => .error m
    | _ => .ok (acc, ts)

end

/-- The embedding of `ast.parse(expr, mode="eval")` for the supported
grammar: lex, parse, and require the whole text to be consumed. -/
def parseExprText (s : String) : Except String Expr :=
  match lexChars (s.data.length + 1) s.data with
  | .error m => .error m
  | .ok toks =>
    match parseBool (10 * (toks.length + 2)) toks with
    | .ok (e, []) => .ok e
    | .ok _ => .error "invalid syntax"
    | .error m => .error m

/-- The embedding of `asteval(expr, variables)`: parse then visit. The
second component is the environment as left behind by evaluation; the
outer `except` of the source turns every failure into a `ValueError`,
which the `Except.error` branch models. -/
def asteval (txt : String) (env : Env) : (Except String Value) × Env :=
  match parseExprText txt with
  | .error m => (.error m, env)
  | .ok e => evalST e env

/-- The value component of `asteval`: what callers of the source function
observe as its return value or raised exception. -/
def astevalV (txt : String) (env : Env) : Except String Value :=
  (asteval txt env).1

/-! Line-level string helpers, mirroring the Python string methods the
dispatcher uses. Slicing and length are by code point, as in Python. -/

/-- Python `str.strip()` with no argument. -/
def pyStrip (s : String) : String :=
  String.mk (((s.data.dropWhile Char.isWhitespace).reverse.dropWhile
    Char.isWhitespace).reverse)

/-- Python `str.split()` with no argument: split on whitespace runs,
discarding empty pieces (fueled; a step consumes at least a character). -/
def splitWsAux : Nat → List Char → List String
  | 0, _ => []
  | _, [] => []
  | f + 1, c :: cs =>
    if c.isWhitespace then splitWsAux f cs
    else
      let tok := c :: cs.takeWhile (fun ch => !ch.isWhitespace)
      String.mk tok :: splitWsAux f (cs.dropWhile (fun ch => !ch.isWhitespace))

/-- Python `line.split()`. -/
def pySplitWs (s : String) : List String :=
  splitWsAux (s.data.length + 1) s.data

/-- Python `line.split(None, 2)`: at most two splits on whitespace runs;
the remainder keeps its internal spacing. -/
def splitWsMax2 (s : String) : List String :=
  let cs0 := s.data.dropWhile Char.isWhitespace
  match cs0 with
  | [] => []
  | _ =>
    let t1 := cs0.takeWhile (fun ch => !ch.isWhitespace)
    let cs1 := (cs0.dropWhile (fun ch => !ch.isWhitespace)).dropWhile
      Char.isWhitespace
    match cs1 with
    | [] => [String.mk t1]
    | _ =>
      let t2 := cs1.takeWhile (fun ch => !ch.isWhitespace)
      let cs2 := (cs1.dropWhile (fun ch => !ch.isWhitespace)).dropWhile
        Char.isWhitespace
      match cs2 with
      | [] => [String.mk t1, String.mk t2]
      | _ => [String.mk t1, String.mk t2, String.mk cs2]

/-- Code-point slice `s[k:]`. -/
def pyDrop (k : Nat) (s : String) : String := String.mk (s.data.drop k)

/-- Code-point slice `s[:-1]`. -/
def pyDropLast (s : String) : String := String.mk s.data.dropLast

/-- Whether `pat` begins the character list. -/
def listPre (pat s : List Char) : Bool :=
  match pat, s with
  | [], _ => true
  | _ :: _, [] => false
  | c :: cs, d :: ds => c = d && listPre cs ds

/-- Python `s.startswith(pat)`. -/
def pyStartsWith (s pat : String) : Bool := listPre pat.data s.data

/-- Python `s.endswith(pat)`. -/
def pyEndsWith (s pat : String) : Bool :=
  listPre pat.data.reverse s.data.reverse

/-- Python `s.find(pat)` (fueled scan; `none` for absent). -/
def findSubAux : Nat → List Char → List Char → Nat → Option Nat
  | 0, _, _, _ => none
  | _, pat, [], i => if pat = [] then some i else none
  | f + 1, pat, c :: cs, i =>
    if listPre pat (c :: cs) then some i else findSubAux f pat cs (i + 1)

/-- Index of the first occurrence of `pat` in `s`. -/
def findSub? (s pat : String) : Option Nat :=
  findSubAux (s.data.length + 1) pat.data s.data 0

/-- Python `s.strip(quote)`: remove double quotes from both ends. -/
def stripQuotes (s : String) : String :=
  String.mk (((s.data.dropWhile (fun ch => ch = dqChar)).reverse.dropWhile
    (fun ch => ch = dqChar)).reverse)

/-- Python `int(s)` on a user input line: optional surrounding
whitespace, optional sign, decimal digits. -/
def pyParseInt? (s : String) : Option Int :=
  let cs := (pyStrip s).data
  let core : List Char → Option Int := fun ds =>
    if ds ≠ [] && ds.all Char.isDigit then some (Int.ofNat (natOfDigits ds))
    else none
  match cs with
  | '-' :: rest => (core rest).map (fun n => -n)
  | '+' :: rest => core rest
  | _ => core cs

/-- Python `float(s)` on a user input line: sign, digits, optional
fractional part, optional decimal exponent. -/
def pyParseFloat? (s : String) : Option Rat :=
  let cs := (pyStrip s).data
  let (neg, cs1) :=
    match cs with
    | '-' :: rest => (true, rest)
    | '+' :: rest => (false, rest)
    | _ => (false, cs)
  let ip := cs1.takeWhile Char.isDigit
  let cs2 := cs1.dropWhile Char.isDigit
  let (fp, cs3) :=
    match cs2 with
    | '.' :: rest => (rest.takeWhile Char.isDigit, rest.dropWhile Char.isDigit)
    | _ => ([], cs2)
  let hasMantissa :=
    (ip ≠ [] || fp ≠ []) &&
      (match cs2 with
       | '.' :: _ => true
       | _ => ip ≠ [])
  let base : Rat := mkFloatLit ip fp
  let applySign : Rat → Rat := fun q => if neg then -q else q
  if !hasMantissa then none
  else
    match cs3 with
    | [] => some (applySign base)
    | e :: rest =>
      if e = 'e' || e = 'E' then
        let (eneg, rest1) :=
          match rest with
          | '-' :: r => (true, r)
          | '+' :: r => (false, r)
          | _ => (false, rest)
        let eds := rest1.takeWhile Char.isDigit
        if eds ≠ [] && rest1.dropWhile Char.isDigit = [] then
          let ex : Rat := (10 : Rat) ^ natOfDigits eds
          some (applySign (if eneg then base / ex else base * ex))
        else none
      else none

/-- Decimal digits of the fractional part `r / d`, up to 40 places
(exact when the expansion terminates, which covers every value the
modelled programs print). -/
def fracDigits : Nat → Nat → Nat → List Char
  | 0, _, _ => []
  | _, 0, _ => []
  | k + 1, r, d =>
    let r10 := r * 10
    Char.ofNat (48 + r10 / d) :: fracDigits k (r10 % d) d

/-- Textual form of a float value, Python-style (`3.0`, `2.5`). -/
def ratRepr (q : Rat) : String :=
  let sgn := if q < 0 then "-" else ""
  let a := if q < 0 then -q else q
  let ip := a.num.toNat / a.den
  let r := a.num.toNat % a.den
  let fd := fracDigits 40 r a.den
  sgn ++ toString ip ++ "." ++ (if fd = [] then "0" else String.mk fd)

/-- Textual form printed by `print(value)`. -/
def pyStr : Value → String
  | .vint n => toString n
  | .vfloat q => ratRepr q
  | .vbool b => if b then "True" else "False"
  | .vstr s => s
  | .vnone => "None"

/-! The interpreter state and the statement dispatcher. -/

/-- The module-level state of nano.py (`variables` plus the block state
globals and the exception log), together with the observable output
stream and the pending standard input lines. -/
structure St where
  vars : Env
  in_block : Bool
  block_type : Option String
  block_lines : List String
  current_condition : Value
  executed_a_branch : Bool
  while_condition : String
  raisedexceptions : List String
  exceptioncount : Nat
  output : List String
  stdin : List String
  deriving DecidableEq

/-- The `exceptionslist` table of the source. -/
def exceptionslist : List String :=
  ["Unknown command", "Invalid syntax", "Illegal statement",
   "Missing opening brace \x27\x7b\x27"]

/-- The formatted record `raiseException` appends. -/
def excMsg (ty line : String) (n : Nat) : String :=
  ty ++ ": Line " ++ toString (n + 1) ++ ": " ++ line

/-- `raiseException(type_, line, linenum)`: increments the count and
appends a formatted record. -/
def raiseExc (ty line : String) (n : Nat) (st : St) : St :=
  { st with
    exceptioncount := st.exceptioncount + 1,
    raisedexceptions := st.raisedexceptions ++ [excMsg ty line n] }

/-- First token of a line, `tokens[0]` after `line.strip().split()`. -/
def lineKw (line : String) : Option String := (pySplitWs (pyStrip line)).head?

/-- The condition text of an `if`/`elif`/`while` line: the remainder
after the keyword, stripped, provided it ends with the opening brace;
`none` when the brace is missing. -/
def condOf (kw line : String) : Option String :=
  let cp := pyStrip (pyDrop kw.length line)
  if pyEndsWith cp "\x7b" then some (pyStrip (pyDropLast cp)) else none

/-- The remainder of an `else` line. -/
def elseRest (line : String) : String := pyStrip (pyDrop 4 line)

/-- The `let` statement handler. -/
def doLet (line : String) (n : Nat) (st : St) : St :=
  let parts := splitWsMax2 line
  if parts.length < 3 || !pyStartsWith (parts.getD 2 "") "=" then
    raiseExc (exceptionslist.getD 1 "") line n st
  else
    let name := parts.getD 1 ""
    let valueExpr := pyStrip (pyDrop 1 (parts.getD 2 ""))
    match astevalV valueExpr st.vars with
    | .ok v => { st with vars := setVar st.vars name v }
    | .error _ => raiseExc (exceptionslist.getD 1 "") line n st

/-- The `print` statement handler (`line[6:]` is the expression). -/
def doPrint (line : String) (n : Nat) (st : St) : St :=
  let expr := pyStrip (pyDrop 6 line)
  match astevalV expr st.vars with
  | .ok v => { st with output := st.output ++ [pyStr v] }
  | .error _ => raiseExc (exceptionslist.getD 1 "") line n st

/-- The `if`/`elif` opener: missing trailing brace raises
`MissingOpeningBrace`; otherwise the block flags are set first and the
condition is evaluated afterwards, so an evaluation failure leaves the
block open with a stale condition snapshot. -/
def doIfElif (kw line : String) (n : Nat) (st : St) : St :=
  match condOf kw line with
  | none => raiseExc (exceptionslist.getD 3 "") line n st
  | some cond =>
    let st1 := { st with in_block := true, block_type := some kw }
    match astevalV cond st1.vars with
    | .ok v => { st1 with current_condition := v }
    | .error _ => raiseExc (exceptionslist.getD 1 "") line n st1

/-- The `else` opener. -/
def doElse (line : String) (n : Nat) (st : St) : St :=
  if elseRest line ≠ "\x7b" then raiseExc (exceptionslist.getD 3 "") line n st
  else { st with in_block := true, block_type := some "else" }

/-- The `while` opener: stores the condition text, evaluated only at
block close. -/
def doWhileOpen (line : String) (n : Nat) (st : St) : St :=
  match condOf "while" line with
  | none => raiseExc (exceptionslist.getD 3 "") line n st
  | some cond =>
    { st with
      in_block := true, block_type := some "while", while_condition := cond }

/-- The `input` statement handler: reads one pending stdin line (EOF is
an exception the handler coarsens to `InvalidSyntax`), trying int, then
float, then raw string. The prompt, if any, is written to the output. -/
def doInput (line : String) (n : Nat) (st : St) : St :=
  let parts := pySplitWs line
  if parts.length < 2 then raiseExc (exceptionslist.getD 1 "") line n st
  else
    let varname := parts.getD 1 ""
    let customPrompt :=
      match findSub? line "prompt" with
      | some idx => pyStrip (pyDrop (idx + 6) line)
      | none => ""
    let st1 := { st with output := st.output ++ [stripQuotes customPrompt] }
    match st1.stdin with
    | [] => raiseExc (exceptionslist.getD 1 "") line n st1
    | inp :: rest =>
      let v :=
        match pyParseInt? inp with
        | some i => Value.vint i
        | none =>
          match pyParseFloat? inp with
          | some q => Value.vfloat q
          | none => Value.vstr inp
      { st1 with stdin := rest, vars := setVar st1.vars varname v }

/-- The keyword chain of `interpret_line` (the `if keyword == ... elif`
cascade); unknown keywords raise `UnknownCommand`. -/
def dispatchKw (kw line : String) (n : Nat) (st : St) : St :=
  if kw = "let" then doLet line n st
  else if kw = "print" then doPrint line n st
  else if kw = "if" ∨ kw = "elif" then doIfElif kw line n st
  else if kw = "else" then doElse line n st
  else if kw = "while" then doWhileOpen line n st
  else if kw = "input" then doInput line n st
  else raiseExc (exceptionslist.getD 0 "") line n st

/-- The non-block dispatch of `interpret_line`: tokenize, skip empty
lines, branch on the leading keyword. -/
def dispatch (line : String) (n : Nat) (st : St) : St :=
  match lineKw line with
  | none => st
  | some kw => dispatchKw kw line n st

/-- Outcome of interpreting a line: normal return, an uncaught Python
exception propagating out of `interpret_line`, or fuel exhaustion. -/
inductive Res where
  | ok (st : St)
  | crash (msg : String)
  | timeout
  deriving DecidableEq

/-- Outcome of the block-replay helpers; `ret = true` records that the
Python `return` inside the while replay fired (skipping the cleanup). -/
inductive ResB where
  | okb (st : St) (ret : Bool)
  | crashb (msg : String)
  | timeoutb
  deriving DecidableEq

/-- Clearing done at the end of the block-close branch:
`block_lines.clear(); block_type = None`. -/
def cleanup (st : St) : St := { st with block_lines := [], block_type := none }

mutual

/-- The embedding of `interpret_line(line, variables, linenum)`. While a
block is open, the closing brace triggers replay and anything else is
buffered; otherwise the line is dispatched. The `while` replay result
with `ret = true` is the early `return` of the source, which skips the
`block_lines.clear()` cleanup. -/
def interpretLine : (fuel : Nat) → String → Nat → St → Res
  | 0, _, _, _ => .timeout
  | f + 1, line, n, st =>
    if st.in_block then
      if line = "\x7d" then
        let st1 := { st with in_block := false }
        if st1.block_type = some "while" then
          match whileLoop f n st1 with
          | .okb st2 true => .ok st2
          | .okb st2 false => .ok (cleanup st2)
          | .crashb m => .crash m
          | .timeoutb => .timeout
        else if st1.block_type = some "else" then
          if !st1.executed_a_branch then
            match forLines false f n 0 st1 with
            | .okb st2 _ => .ok (cleanup { st2 with executed_a_branch := false })
            | .crashb m => .crash m
            | .timeoutb => .timeout
          else .ok (cleanup { st1 with executed_a_branch := false })
        else if st1.block_type = some "if" ∨ st1.block_type = some "elif" then
          if truthy st1.current_condition && !st1.executed_a_branch then
            match forLines false f n 0 st1 with
            | .okb st2 _ => .ok (cleanup { st2 with executed_a_branch := true })
            | .crashb m => .crash m
            | .timeoutb => .timeout
          else .ok (cleanup st1)
        else .ok (cleanup st1)
      else .ok { st with block_lines := st.block_lines ++ [line] }
    else .ok (dispatch line n st)
  termination_by structural fuel => fuel

/-- The `while asteval(while_condition, variables): ...` loop of the
close branch. The condition evaluation is not guarded by any handler in
the source, so a failure is a crash of the run. -/
def whileLoop : (fuel : Nat) → Nat → St → ResB
  | 0, _, _ => .timeoutb
  | f + 1, n, st =>
    match astevalV st.while_condition st.vars with
    | .error m => .crashb m
    | .ok v =>
      if truthy v then
        match forLines true f n 0 st with
        | .okb st1 true => .okb st1 true
        | .okb st1 false => whileLoop f n st1
        | .crashb m => .crashb m
        | .timeoutb => .timeoutb
      else .okb st false
  termination_by structural fuel => fuel

/-- The `for bline in block_lines` replay: a live index-based walk over
the current buffer (body lines are re-entered through `interpret_line`
and may themselves modify the buffer). In while mode a body line equal
to `break` fires the early return before being interpreted. -/
def forLines : Bool → (fuel : Nat) → Nat → Nat → St → ResB
  | _, 0, _, _, _ => .timeoutb
  | isW, f + 1, n, i, st =>
    match st.block_lines[i]? with
    | none => .okb st false
    | some bline =>
      if isW && bline = "break" then .okb st true
      else
        match interpretLine f bline n st with
        | .ok st1 => forLines isW f n (i + 1) st1
        | .crash m => .crashb m
        | .timeout => .timeoutb
  termination_by structural _ fuel => fuel

end

/-- Runs a list of already-buffered lines at one line number, as the
replay does (early exit on crash or fuel exhaustion). -/
def runSeq : Nat → List String → Nat → St → Res
  | _, [], _, st => .ok st
  | f, l :: ls, n, st =>
    match interpretLine f l n st with
    | .ok st1 => runSeq f ls n st1
    | .crash m => .crash m
    | .timeout => .timeout

/-- The loop of `run_minipy`: each source line is stripped and fed to
`interpret_line` with its 0-based line number. -/
def runLines : Nat → List String → Nat → St → Res
  | _, [], _, st => .ok st
  | f, l :: ls, n, st =>
    match interpretLine f (pyStrip l) n st with
    | .ok st1 => runLines f ls (n + 1) st1
    | .crash m => .crash m
    | .timeout => .timeout

/-- Splits a character list at newlines. -/
def splitNlAux : List Char → List Char → List String
  | acc, [] => [String.mk acc.reverse]
  | acc, c :: cs =>
    if c = '\n' then String.mk acc.reverse :: splitNlAux [] cs
    else splitNlAux (c :: acc) cs

/-- Python `code.splitlines()` restricted to newline separators (every
newline terminates a line; no trailing empty line). -/
def pySplitLines (s : String) : List String :=
  if s = "" then []
  else
    let ls := splitNlAux [] s.data
    if ls.getLast? = some "" then ls.dropLast else ls

/-- The fresh state `run_minipy` creates (empty variables, no block
open, empty exception log). -/
def initSt : St :=
  { vars := [], in_block := false, block_type := none,
    block_lines := [], current_condition := .vbool false,
    executed_a_branch := false, while_condition := "",
    raisedexceptions := [], exceptioncount := 0, output := [], stdin := [] }

/-- The embedding of `run_minipy(code)`. -/
def runMinipy (f : Nat) (code : String) : Res :=
  runLines f (pySplitLines code) 0 initSt

/-- Lines whose dispatch cannot touch the block bookkeeping: anything
except the closing brace and the four block-opening keywords. -/
def simpleLine (l : String) : Bool :=
  (l != "\x7d") &&
    (match lineKw l with
     | some "if" => false
     | some "elif" => false
     | some "else" => false
     | some "while" => false
     | _ => true)

/-- Exception-log discipline between two states: the count grows by
exactly the number of appended records, and records are never removed. -/
def excOK (s t : St) : Prop :=
  t.exceptioncount + s.raisedexceptions.length
      = s.exceptioncount + t.raisedexceptions.length ∧
    ∃ new, t.raisedexceptions = s.raisedexceptions ++ new

/-- Equality of the block bookkeeping fields of two states. -/
def blockEq (s t : St) : Prop :=
  t.in_block = s.in_block ∧ t.block_type = s.block_type ∧
    t.block_lines = s.block_lines ∧
    t.current_condition = s.current_condition ∧
    t.executed_a_branch = s.executed_a_branch ∧
    t.while_condition = s.while_condition

/-! Supporting lemmas. -/

theorem evalST_env : ∀ (e : Expr) (env : Env), (evalST e env).2 = env
  | .const _, _ => rfl
  | .name _, _ => rfl
  | .binop op l r, env => by
    simp only [evalST]
    have hl := evalST_env l env
    have hr := evalST_env r env
    rcases hle : evalST l env with ⟨rl, env1⟩
    rw [hle] at hl
    simp only at hl
    rw [hl]
    cases rl with
    | error m => simp
    | ok lv =>
      dsimp only
      rcases hre : evalST r env with ⟨rr, env2⟩
      rw [hre] at hr
      simp only at hr
      rw [hr]
      cases rr <;> simp
  | .compare l ops c0 rest, env => by
    simp only [evalST]
    have hl := evalST_env l env
    have hc := evalST_env c0 env
    rcases hle : evalST l env with ⟨rl, env1⟩
    rw [hle] at hl
    simp only at hl
    rw [hl]
    cases rl with
    | error m => simp
    | ok lv =>
      dsimp only
      rcases hce : evalST c0 env with ⟨rc, env2⟩
      rw [hce] at hc
      simp only at hc
      rw [hc]
      cases rc with
      | error m => simp
      | ok rv => cases ops <;> simp
  | .unaryop op e, env => by
    simp only [evalST]
    have he := evalST_env e env
    rcases hee : evalST e env with ⟨re, env1⟩
    rw [hee] at he
    simp only at he
    rw [he]
    cases re <;> simp
  | .boolop, _ => rfl
  | .call, _ => rfl

theorem interp_nonblock (f n : Nat) (line : String) (st : St)
    (h : st.in_block = false) :
    interpretLine (f + 1) line n st = .ok (dispatch line n st) := by
  simp [interpretLine, h]

theorem interp_buffer (f n : Nat) (line : String) (st : St)
    (h : st.in_block = true) (hne : line ≠ "\x7d") :
    interpretLine (f + 1) line n st
      = .ok { st with block_lines := st.block_lines ++ [line] } := by
  simp [interpretLine, h, hne]

theorem dispatch_some (kw line : String) (n : Nat) (st : St)
    (h : lineKw line = some kw) :
    dispatch line n st = dispatchKw kw line n st := by
  unfold dispatch
  rw [h]

theorem dispatch_none (line : String) (n : Nat) (st : St)
    (h : lineKw line = none) : dispatch line n st = st := by
  unfold dispatch
  rw [h]

theorem dispatch_let (line : String) (n : Nat) (st : St)
    (h : lineKw line = some "let") :
    dispatch line n st = doLet line n st := by
  rw [dispatch_some "let" line n st h]
  rfl

theorem dispatch_print (line : String) (n : Nat) (st : St)
    (h : lineKw line = some "print") :
    dispatch line n st = doPrint line n st := by
  rw [dispatch_some "print" line n st h]
  rfl

theorem dispatch_ifelif (kw line : String) (n : Nat) (st : St)
    (h : lineKw line = some kw) (hkw : kw = "if" ∨ kw = "elif") :
    dispatch line n st = doIfElif kw line n st := by
  rw [dispatch_some kw line n st h]
  rcases hkw with h1 | h1 <;> subst h1 <;> rfl

theorem dispatch_else (line : String) (n : Nat) (st : St)
    (h : lineKw line = some "else") :
    dispatch line n st = doElse line n st := by
  rw [dispatch_some "else" line n st h]
  rfl

theorem dispatch_while (line : String) (n : Nat) (st : St)
    (h : lineKw line = some "while") :
    dispatch line n st = doWhileOpen line n st := by
  rw [dispatch_some "while" line n st h]
  rfl

theorem doIfElif_ok (kw line : String) (n : Nat) (st : St) (c : String)
    (v : Value) (hc : condOf kw line = some c)
    (hv : astevalV c st.vars = .ok v) :
    doIfElif kw line n st
      = { st with
          in_block := true, block_type := some kw,
          current_condition := v } := by
  simp only [doIfElif, hc]
  have : ({ st with in_block := true, block_type := some kw } : St).vars
      = st.vars := rfl
  rw [this, hv]

theorem doIfElif_err (kw line : String) (n : Nat) (st : St) (c m : String)
    (hc : condOf kw line = some c)
    (hv : astevalV c st.vars = .error m) :
    doIfElif kw line n st
      = raiseExc (exceptionslist.getD 1 "") line n
          { st with in_block := true, block_type := some kw } := by
  simp only [doIfElif, hc]
  have : ({ st with in_block := true, block_type := some kw } : St).vars
      = st.vars := rfl
  rw [this, hv]

theorem doIfElif_brace (kw line : String) (n : Nat) (st : St)
    (hc : condOf kw line = none) :
    doIfElif kw line n st = raiseExc (exceptionslist.getD 3 "") line n st := by
  simp only [doIfElif, hc]

theorem doWhileOpen_ok (line : String) (n : Nat) (st : St) (c : String)
    (hc : condOf "while" line = some c) :
    doWhileOpen line n st
      = { st with
          in_block := true, block_type := some "while",
          while_condition := c } := by
  simp only [doWhileOpen, hc]

theorem doWhileOpen_brace (line : String) (n : Nat) (st : St)
    (hc : condOf "while" line = none) :
    doWhileOpen line n st = raiseExc (exceptionslist.getD 3 "") line n st := by
  simp only [doWhileOpen, hc]

theorem doElse_ok (line : String) (n : Nat) (st : St)
    (hr : elseRest line = "\x7b") :
    doElse line n st
      = { st with in_block := true, block_type := some "else" } := by
  simp [doElse, hr]

theorem blockEq_refl (s : St) : blockEq s s := ⟨rfl, rfl, rfl, rfl, rfl, rfl⟩

theorem blockEq_trans {s t u : St} (h1 : blockEq s t) (h2 : blockEq t u) :
    blockEq s u :=
  ⟨h2.1.trans h1.1, h2.2.1.trans h1.2.1, h2.2.2.1.trans h1.2.2.1,
    h2.2.2.2.1.trans h1.2.2.2.1, h2.2.2.2.2.1.trans h1.2.2.2.2.1,
    h2.2.2.2.2.2.trans h1.2.2.2.2.2⟩

theorem doLet_blockEq (l : String) (n : Nat) (st : St) :
    blockEq st (doLet l n st) := by
  simp only [doLet]
  split
  · exact ⟨rfl, rfl, rfl, rfl, rfl, rfl⟩
  · split <;> exact ⟨rfl, rfl, rfl, rfl, rfl, rfl⟩

theorem doPrint_blockEq (l : String) (n : Nat) (st : St) :
    blockEq st (doPrint l n st) := by
  simp only [doPrint]
  split <;> exact ⟨rfl, rfl, rfl, rfl, rfl, rfl⟩

theorem doInput_blockEq (l : String) (n : Nat) (st : St) :
    blockEq st (doInput l n st) := by
  simp only [doInput]
  split
  · exact ⟨rfl, rfl, rfl, rfl, rfl, rfl⟩
  · split <;> exact ⟨rfl, rfl, rfl, rfl, rfl, rfl⟩

theorem dispatchKw_blockEq (kw l : String) (n : Nat) (st : St)
    (h1 : kw ≠ "if") (h2 : kw ≠ "elif") (h3 : kw ≠ "else")
    (h4 : kw ≠ "while") : blockEq st (dispatchKw kw l n st) := by
  have hife : ¬(kw = "if" ∨ kw = "elif") := fun h => h.elim h1 h2
  unfold dispatchKw
  by_cases a : kw = "let"
  · rw [if_pos a]
    exact doLet_blockEq l n st
  rw [if_neg a]
  by_cases b : kw = "print"
  · rw [if_pos b]
    exact doPrint_blockEq l n st
  rw [if_neg b, if_neg hife, if_neg h3, if_neg h4]
  by_cases c : kw = "input"
  · rw [if_pos c]
    exact doInput_blockEq l n st
  · rw [if_neg c]
    exact ⟨rfl, rfl, rfl, rfl, rfl, rfl⟩

theorem simpleLine_ne (l : String) (hs : simpleLine l = true) :
    l ≠ "\x7d" := by
  intro h
  subst h
  simp [simpleLine] at hs

theorem dispatch_blockEq (l : String) (n : Nat) (st : St)
    (hs : simpleLine l = true) : blockEq st (dispatch l n st) := by
  unfold dispatch
  cases hk : lineKw l with
  | none => exact blockEq_refl st
  | some kw =>
    have h1 : kw ≠ "if" := by rintro rfl; simp [simpleLine, hk] at hs
    have h2 : kw ≠ "elif" := by rintro rfl; simp [simpleLine, hk] at hs
    have h3 : kw ≠ "else" := by rintro rfl; simp [simpleLine, hk] at hs
    have h4 : kw ≠ "while" := by rintro rfl; simp [simpleLine, hk] at hs
    exact dispatchKw_blockEq kw l n st h1 h2 h3 h4

theorem excOK_refl (s : St) : excOK s s := ⟨rfl, ⟨[], by simp⟩⟩

theorem excOK_trans {s t u : St} (h1 : excOK s t) (h2 : excOK t u) :
    excOK s u := by
  obtain ⟨c1, n1, e1⟩ := h1
  obtain ⟨c2, n2, e2⟩ := h2
  refine ⟨?_, ⟨n1 ++ n2, by rw [e2, e1, List.append_assoc]⟩⟩
  have l2 : u.raisedexceptions.length
      = t.raisedexceptions.length + n2.length := by simp [e2]
  have l1 : t.raisedexceptions.length
      = s.raisedexceptions.length + n1.length := by simp [e1]
  omega

theorem excOK_of_eq {s t : St} (h1 : t.exceptioncount = s.exceptioncount)
    (h2 : t.raisedexceptions = s.raisedexceptions) : excOK s t :=
  ⟨by rw [h1, h2], ⟨[], by simp [h2]⟩⟩

theorem raiseExc_excOK (ty l : String) (n : Nat) (st : St) :
    excOK st (raiseExc ty l n st) := by
  refine ⟨?_, ⟨[excMsg ty l n], rfl⟩⟩
  simp [raiseExc]
  omega

theorem doLet_excOK (l : String) (n : Nat) (st : St) :
    excOK st (doLet l n st) := by
  simp only [doLet]
  split
  · exact raiseExc_excOK _ _ _ _
  · split
    · exact excOK_of_eq rfl rfl
    · exact raiseExc_excOK _ _ _ _

theorem doPrint_excOK (l : String) (n : Nat) (st : St) :
    excOK st (doPrint l n st) := by
  simp only [doPrint]
  split
  · exact excOK_of_eq rfl rfl
  · exact raiseExc_excOK _ _ _ _

theorem doIfElif_excOK (kw l : String) (n : Nat) (st : St) :
    excOK st (doIfElif kw l n st) := by
  simp only [doIfElif]
  split
  · exact raiseExc_excOK _ _ _ _
  · split
    · exact excOK_of_eq rfl rfl
    · exact excOK_trans (excOK_of_eq (s := st) rfl rfl) (raiseExc_excOK _ _ _ _)

theorem doElse_excOK (l : String) (n : Nat) (st : St) :
    excOK st (doElse l n st) := by
  simp only [doElse]
  split
  · exact raiseExc_excOK _ _ _ _
  · exact excOK_of_eq rfl rfl

theorem doWhileOpen_excOK (l : String) (n : Nat) (st : St) :
    excOK st (doWhileOpen l n st) := by
  simp only [doWhileOpen]
  split
  · exact raiseExc_excOK _ _ _ _
  · exact excOK_of_eq rfl rfl

theorem doInput_excOK (l : String) (n : Nat) (st : St) :
    excOK st (doInput l n st) := by
  simp only [doInput]
  split
  · exact raiseExc_excOK _ _ _ _
  · split
    · exact excOK_trans (excOK_of_eq (s := st) rfl rfl) (raiseExc_excOK _ _ _ _)
    · exact excOK_of_eq rfl rfl

theorem dispatchKw_excOK (kw l : String) (n : Nat) (st : St) :
    excOK st (dispatchKw kw l n st) := by
  unfold dispatchKw
  by_cases a : kw = "let"
  · rw [if_pos a]
    exact doLet_excOK l n st
  rw [if_neg a]
  by_cases b : kw = "print"
  · rw [if_pos b]
    exact doPrint_excOK l n st
  rw [if_neg b]
  by_cases c : kw = "if" ∨ kw = "elif"
  · rw [if_pos c]
    exact doIfElif_excOK kw l n st
  rw [if_neg c]
  by_cases d : kw = "else"
  · rw [if_pos d]
    exact doElse_excOK l n st
  rw [if_neg d]
  by_cases e : kw = "while"
  · rw [if_pos e]
    exact doWhileOpen_excOK l n st
  rw [if_neg e]
  by_cases g : kw = "input"
  · rw [if_pos g]
    exact doInput_excOK l n st
  · rw [if_neg g]
    exact raiseExc_excOK _ _ _ _

theorem dispatch_excOK (l : String) (n : Nat) (st : St) :
    excOK st (dispatch l n st) := by
  unfold dispatch
  cases hk : lineKw l with
  | none => exact excOK_refl st
  | some kw => exact dispatchKw_excOK kw l n st

theorem stepExcOK (f : Nat) :
    (∀ l n st st1, interpretLine f l n st = .ok st1 → excOK st st1) ∧
      (∀ n st st1 b, whileLoop f n st = .okb st1 b → excOK st st1) ∧
      (∀ isW n i st st1 b, forLines isW f n i st = .okb st1 b → excOK st st1) := by
  induction f with
  | zero =>
    refine ⟨?_, ?_, ?_⟩ <;> intros <;>
      simp_all [interpretLine, whileLoop, forLines]
  | succ f ih =>
    obtain ⟨ihI, ihW, ihF⟩ := ih
    refine ⟨?_, ?_, ?_⟩
    · intro l n st st1 h
      simp only [interpretLine] at h
      repeat' split at h
      all_goals try cases h
      all_goals first
        | exact excOK_of_eq rfl rfl
        | exact dispatch_excOK l n st
        | (rename_i heq
           first
             | (refine excOK_trans ?_ (ihW _ _ _ _ heq)
                exact excOK_of_eq rfl rfl)
             | (refine excOK_trans (excOK_trans ?_ (ihW _ _ _ _ heq)) ?_ <;>
                 exact excOK_of_eq rfl rfl)
             | (refine excOK_trans (excOK_trans ?_ (ihF _ _ _ _ _ _ heq)) ?_ <;>
                 exact excOK_of_eq rfl rfl))
    · intro n st st1 b h
      simp only [whileLoop] at h
      repeat' split at h
      all_goals try cases h
      all_goals first
        | exact excOK_refl _
        | (rename_i heq; exact ihF _ _ _ _ _ _ heq)
        | (rename_i heq; exact excOK_trans (ihF _ _ _ _ _ _ heq) (ihW _ _ _ _ h))
    · intro isW n i st st1 b h
      simp only [forLines] at h
      repeat' split at h
      all_goals try cases h
      all_goals first
        | exact excOK_refl _
        | (rename_i heq; exact excOK_trans (ihI _ _ _ _ heq) (ihF _ _ _ _ _ _ h))

theorem runLinesExcOK : ∀ (ls : List String) (f n : Nat) (st st1 : St),
    runLines f ls n st = .ok st1 → excOK st st1
  | [], f, n, st, st1, h => by
    cases h
    exact excOK_refl _
  | l :: ls, f, n, st, st1, h => by
    simp only [runLines] at h
    split at h
    · exact excOK_trans ((stepExcOK f).1 _ _ _ _ ‹_›)
        (runLinesExcOK ls f (n + 1) _ _ h)
    · cases h
    · cases h

theorem forLines_succ (isW : Bool) (f n i : Nat) (st : St) :
    forLines isW (f + 1) n i st
      = match st.block_lines[i]? with
        | none => .okb st false
        | some bline =>
          if isW && bline = "break" then .okb st true
          else
            match interpretLine f bline n st with
            | .ok st1 => forLines isW f n (i + 1) st1
            | .crash m => .crashb m
            | .timeout => .timeoutb := by
  simp only [forLines]

theorem whileLoop_succ (f n : Nat) (st : St) :
    whileLoop (f + 1) n st
      = match astevalV st.while_condition st.vars with
        | .error m => .crashb m
        | .ok v =>
          if truthy v then
            match forLines true f n 0 st with
            | .okb st1 true => .okb st1 true
            | .okb st1 false => whileLoop f n st1
            | .crashb m => .crashb m
            | .timeoutb => .timeoutb
          else .okb st false := by
  simp only [whileLoop]

theorem interp_close (f n : Nat) (st : St) (hib : st.in_block = true) :
    interpretLine (f + 1) "\x7d" n st
      = (let st1 := { st with in_block := false }
         if st1.block_type = some "while" then
           match whileLoop f n st1 with
           | .okb st2 true => .ok st2
           | .okb st2 false => .ok (cleanup st2)
           | .crashb m => .crash m
           | .timeoutb => .timeout
         else if st1.block_type = some "else" then
           if !st1.executed_a_branch then
             match forLines false f n 0 st1 with
             | .okb st2 _ => .ok (cleanup { st2 with executed_a_branch := false })
             | .crashb m => .crash m
             | .timeoutb => .timeout
           else .ok (cleanup { st1 with executed_a_branch := false })
         else if st1.block_type = some "if" ∨ st1.block_type = some "elif" then
           if truthy st1.current_condition && !st1.executed_a_branch then
             match forLines false f n 0 st1 with
             | .okb st2 _ => .ok (cleanup { st2 with executed_a_branch := true })
             | .crashb m => .crash m
             | .timeoutb => .timeout
           else .ok (cleanup st1)
         else .ok (cleanup st1)) := by
  simp only [interpretLine, hib]
  rfl

theorem runSeq_simple : ∀ (ls : List String) (n : Nat) (st : St),
    st.in_block = false → (∀ l ∈ ls, simpleLine l = true) →
    ∃ st1, runSeq 1 ls n st = .ok st1 ∧ blockEq st st1
  | [], _, st, _, _ => ⟨st, rfl, blockEq_refl st⟩
  | l :: ls, n, st, h0, hs => by
    have hl := hs l (by simp)
    have hbe := dispatch_blockEq l n st hl
    have h0d : (dispatch l n st).in_block = false := hbe.1.trans h0
    obtain ⟨st1, he, hbe2⟩ := runSeq_simple ls n (dispatch l n st) h0d
      (fun x hx => hs x (by simp [hx]))
    refine ⟨st1, ?_, blockEq_trans hbe hbe2⟩
    simp only [runSeq]
    rw [interp_nonblock 0 n l st h0]
    exact he

theorem forLines_simple : ∀ (g : Nat), ∀ (i n : Nat) (st stA : St),
    st.in_block = false → (∀ l ∈ st.block_lines, simpleLine l = true) →
    st.block_lines.length - i < g →
    runSeq 1 (st.block_lines.drop i) n st = .ok stA →
    forLines false g n i st = .okb stA false := by
  intro g
  induction g with
  | zero => intro i n st stA _ _ hf _; omega
  | succ g ih =>
    intro i n st stA h0 hs hf hseq
    by_cases hi : i < st.block_lines.length
    · have hdrop := List.drop_eq_getElem_cons (l := st.block_lines) (n := i) hi
      have hmem : st.block_lines[i] ∈ st.block_lines := List.getElem_mem hi
      have hsimple := hs _ hmem
      obtain ⟨g1, rfl⟩ : ∃ g1, g = g1 + 1 := ⟨g - 1, by omega⟩
      obtain ⟨hb1, hb2, hb3, hb4, hb5, hb6⟩ :=
        dispatch_blockEq st.block_lines[i] n st hsimple
      have hseq2 : runSeq 1
          ((dispatch st.block_lines[i] n st).block_lines.drop (i + 1)) n
          (dispatch st.block_lines[i] n st) = .ok stA := by
        rw [hb3]
        rw [hdrop] at hseq
        simp only [runSeq] at hseq
        rw [interp_nonblock 0 n st.block_lines[i] st h0] at hseq
        exact hseq
      have hrec := ih (i + 1) n (dispatch st.block_lines[i] n st) stA
        (hb1.trans h0) (by rw [hb3]; exact hs) (by rw [hb3]; omega) hseq2
      rw [forLines_succ, List.getElem?_eq_getElem hi]
      dsimp only
      rw [if_neg (by simp)]
      rw [interp_nonblock g1 n st.block_lines[i] st h0]
      dsimp only
      exact hrec
    · have hnone : st.block_lines[i]? = none := List.getElem?_eq_none (by omega)
      have hdrop : st.block_lines.drop i = [] :=
        List.drop_eq_nil_of_le (by omega)
      rw [hdrop] at hseq
      cases hseq
      rw [forLines_succ, hnone]

theorem forLines_break : ∀ (P : List String), ∀ (g i n : Nat)
    (st stP : St) (Q : List String),
    st.in_block = false →
    st.block_lines.drop i = P ++ "break" :: Q →
    (∀ l ∈ P, simpleLine l = true ∧ l ≠ "break") →
    P.length < g →
    runSeq 1 P n st = .ok stP →
    forLines true g n i st = .okb stP true
  | [], g, i, n, st, stP, Q, h0, hdrop, _, hg, hseq => by
    cases hseq
    have hi : i < st.block_lines.length := by
      by_contra hge
      rw [List.drop_eq_nil_of_le (by omega)] at hdrop
      exact List.cons_ne_nil _ _ hdrop.symm
    have hget : st.block_lines[i] = "break" := by
      have hcons := List.drop_eq_getElem_cons (l := st.block_lines) (n := i) hi
      rw [hdrop] at hcons
      exact ((List.cons_eq_cons.mp hcons.symm).1)
    obtain ⟨g1, rfl⟩ : ∃ g1, g = g1 + 1 := ⟨g - 1, by omega⟩
    rw [forLines_succ, List.getElem?_eq_getElem hi, hget]
    simp
  | p :: P, g, i, n, st, stP, Q, h0, hdrop, hP, hg, hseq => by
    have hi : i < st.block_lines.length := by
      by_contra hge
      rw [List.drop_eq_nil_of_le (by omega)] at hdrop
      exact List.cons_ne_nil _ _ hdrop.symm
    have hcons := List.drop_eq_getElem_cons (l := st.block_lines) (n := i) hi
    rw [hdrop] at hcons
    have hget : st.block_lines[i] = p := (List.cons_eq_cons.mp hcons.symm).1
    have htail : st.block_lines.drop (i + 1) = P ++ "break" :: Q :=
      (List.cons_eq_cons.mp hcons.symm).2
    have hp := hP p (by simp)
    obtain ⟨g1, rfl⟩ : ∃ g1, g = g1 + 1 := ⟨g - 1, by omega⟩
    obtain ⟨hb1, hb2, hb3, hb4, hb5, hb6⟩ := dispatch_blockEq p n st hp.1
    have hseq2 : runSeq 1 P n (dispatch p n st) = .ok stP := by
      simp only [runSeq] at hseq
      rw [interp_nonblock 0 n p st h0] at hseq
      exact hseq
    have hlen : P.length < g1 := by
      simp only [List.length_cons] at hg
      omega
    obtain ⟨g2, rfl⟩ : ∃ g2, g1 = g2 + 1 := ⟨g1 - 1, by omega⟩
    have hrec := forLines_break P (g2 + 1) (i + 1) n (dispatch p n st) stP Q
      (hb1.trans h0) (by rw [hb3]; exact htail)
      (fun x hx => hP x (by simp [hx])) hlen hseq2
    rw [forLines_succ, List.getElem?_eq_getElem hi, hget]
    dsimp only
    rw [if_neg (by simp [hp.2])]
    rw [interp_nonblock g2 n p st h0]
    dsimp only
    exact hrec

theorem close_while_break (g2 n : Nat) (st stP : St) (P Q : List String)
    (v : Value) (hib : st.in_block = true)
    (hbt : st.block_type = some "while")
    (hbl : st.block_lines = P ++ "break" :: Q)
    (hP : ∀ l ∈ P, simpleLine l = true ∧ l ≠ "break")
    (hcond : astevalV st.while_condition st.vars = .ok v)
    (htr : truthy v = true)
    (hfuel : P.length < g2)
    (hseq : runSeq 1 P n { st with in_block := false } = .ok stP) :
    interpretLine (g2 + 1 + 1) "\x7d" n st = .ok stP := by
  rw [interp_close (g2 + 1) n st hib]
  dsimp only
  rw [if_pos hbt]
  rw [whileLoop_succ]
  rw [show astevalV ({ st with in_block := false } : St).while_condition
      ({ st with in_block := false } : St).vars = .ok v from hcond]
  dsimp only
  rw [if_pos htr]
  rw [forLines_break P g2 0 n { st with in_block := false } stP Q rfl
    (by rw [List.drop_zero]; exact hbl) hP hfuel hseq]

theorem close_ifelif_run (g n : Nat) (st stA : St) (kw : String)
    (hib : st.in_block = true) (hbt : st.block_type = some kw)
    (hkw : kw = "if" ∨ kw = "elif")
    (hcond : (truthy st.current_condition && !st.executed_a_branch) = true)
    (hsimple : ∀ l ∈ st.block_lines, simpleLine l = true)
    (hfuel : st.block_lines.length < g)
    (hseq : runSeq 1 st.block_lines n { st with in_block := false }
      = .ok stA) :
    interpretLine (g + 1) "\x7d" n st
      = .ok (cleanup { stA with executed_a_branch := true }) := by
  rw [interp_close g n st hib]
  dsimp only
  rw [if_neg (by rw [hbt]; rcases hkw with rfl | rfl <;> simp)]
  rw [if_neg (by rw [hbt]; rcases hkw with rfl | rfl <;> simp)]
  rw [if_pos (by rw [hbt]; rcases hkw with rfl | rfl <;> simp)]
  rw [if_pos hcond]
  rw [forLines_simple g 0 n { st with in_block := false } stA rfl hsimple
    (by simpa using hfuel) (by rw [List.drop_zero]; exact hseq)]

theorem close_ifelif_skip (g n : Nat) (st : St) (kw : String)
    (hib : st.in_block = true) (hbt : st.block_type = some kw)
    (hkw : kw = "if" ∨ kw = "elif")
    (hcond : (truthy st.current_condition && !st.executed_a_branch) = false) :
    interpretLine (g + 1) "\x7d" n st
      = .ok (cleanup { st with in_block := false }) := by
  rw [interp_close g n st hib]
  dsimp only
  rw [if_neg (by rw [hbt]; rcases hkw with rfl | rfl <;> simp)]
  rw [if_neg (by rw [hbt]; rcases hkw with rfl | rfl <;> simp)]
  rw [if_pos (by rw [hbt]; rcases hkw with rfl | rfl <;> simp)]
  rw [if_neg (by rw [hcond]; simp)]

theorem close_else_run (g n : Nat) (st stA : St)
    (hib : st.in_block = true) (hbt : st.block_type = some "else")
    (heb : st.executed_a_branch = false)
    (hsimple : ∀ l ∈ st.block_lines, simpleLine l = true)
    (hfuel : st.block_lines.length < g)
    (hseq : runSeq 1 st.block_lines n { st with in_block := false }
      = .ok stA) :
    interpretLine (g + 1) "\x7d" n st
      = .ok (cleanup { stA with executed_a_branch := false }) := by
  rw [interp_close g n st hib]
  dsimp only
  rw [if_neg (by rw [hbt]; simp)]
  rw [if_pos hbt]
  rw [if_pos (by rw [show ({ st with in_block := false } : St).executed_a_branch
      = false from heb]; rfl)]
  rw [forLines_simple g 0 n { st with in_block := false } stA rfl hsimple
    (by simpa using hfuel) (by rw [List.drop_zero]; exact hseq)]

theorem close_else_skip (g n : Nat) (st : St)
    (hib : st.in_block = true) (hbt : st.block_type = some "else")
    (heb : st.executed_a_branch = true) :
    interpretLine (g + 1) "\x7d" n st
      = .ok (cleanup { st with
          in_block := false, executed_a_branch := false }) := by
  rw [interp_close g n st hib]
  dsimp only
  rw [if_neg (by rw [hbt]; simp)]
  rw [if_pos hbt]
  rw [if_neg (by rw [show ({ st with in_block := false } : St).executed_a_branch
      = true from heb]; simp)]

theorem runLines_append : ∀ (xs ys : List String) (f n : Nat) (st st1 : St),
    runLines f xs n st = .ok st1 →
    runLines f (xs ++ ys) n st = runLines f ys (n + xs.length) st1
  | [], ys, f, n, st, st1, h => by
    cases h
    simp [runLines]
  | x :: xs, ys, f, n, st, st1, h => by
    simp only [runLines] at h
    simp only [List.cons_append, runLines]
    rcases hx : interpretLine f (pyStrip x) n st with st2 | m | _ <;>
      rw [hx] at h <;> dsimp only at h ⊢
    · have hrec := runLines_append xs ys f (n + 1) st2 st1 h
      rw [List.length_cons, show n + (xs.length + 1) = n + 1 + xs.length from by omega]
      exact hrec
    · cases h
    · cases h

theorem runLines_collect : ∀ (ls : List String) (f n : Nat) (st : St),
    st.in_block = true → (∀ l ∈ ls, pyStrip l = l ∧ l ≠ "\x7d") →
    runLines (f + 1) ls n st
      = .ok { st with block_lines := st.block_lines ++ ls }
  | [], f, n, st, _, _ => by simp [runLines]
  | l :: ls, f, n, st, hib, hl => by
    have h1 := hl l (by simp)
    simp only [runLines]
    rw [h1.1, interp_buffer f n l st hib h1.2]
    dsimp only
    rw [runLines_collect ls f (n + 1) { st with
      block_lines := st.block_lines ++ [l] } hib
      (fun x hx => hl x (by simp [hx]))]
    simp [List.append_assoc]

theorem runSeq_simple_fields (ls : List String) (n : Nat) (st stA : St)
    (hib : st.in_block = false) (hs : ∀ l ∈ ls, simpleLine l = true)
    (h : runSeq 1 ls n st = .ok stA) : blockEq st stA := by
  obtain ⟨stX, hX, hbe⟩ := runSeq_simple ls n st hib hs
  rw [h] at hX
  cases hX
  exact hbe

theorem seg_ifelif_skip (f n : Nat) (kw line c : String)
    (body rest : List String) (st : St) (v : Value)
    (hib : st.in_block = false) (hbl : st.block_lines = [])
    (htrim : pyStrip line = line)
    (hkwv : lineKw line = some kw) (hkor : kw = "if" ∨ kw = "elif")
    (hcnd : condOf kw line = some c)
    (hval : astevalV c st.vars = .ok v)
    (hbody : ∀ l ∈ body, pyStrip l = l ∧ simpleLine l = true)
    (hskip : (truthy v && !st.executed_a_branch) = false) :
    runLines (f + 1) (line :: (body ++ "\x7d" :: rest)) n st
      = runLines (f + 1) rest (n + 1 + body.length + 1)
          { st with
            in_block := false, block_type := none, block_lines := [],
            current_condition := v } := by
  obtain ⟨v0, ib0, bt0, bl0, cc0, eab0, wc0, ex0, ec0, o0, in0⟩ := st
  simp only at hib hbl hskip hval
  subst hib hbl
  simp only [runLines]
  rw [htrim, interp_nonblock f n line _ rfl,
    dispatch_ifelif kw line n _ hkwv hkor,
    doIfElif_ok kw line n _ c v hcnd hval]
  dsimp only
  have hcol := runLines_collect body f (n + 1)
    ⟨v0, true, some kw, [], v, eab0, wc0, ex0, ec0, o0, in0⟩ rfl
    (fun l hl => ⟨(hbody l hl).1, simpleLine_ne l (hbody l hl).2⟩)
  rw [runLines_append body ("\x7d" :: rest) (f + 1) (n + 1) _ _ hcol]
  dsimp only
  simp only [List.nil_append]
  simp only [runLines]
  rw [show pyStrip "\x7d" = "\x7d" from rfl]
  rw [close_ifelif_skip f (n + 1 + body.length)
    ⟨v0, true, some kw, body, v, eab0, wc0, ex0, ec0, o0, in0⟩ kw
    rfl rfl hkor hskip]
  rfl

theorem seg_ifelif_run (f n : Nat) (kw line c : String)
    (body rest : List String) (st stA : St) (v : Value)
    (hib : st.in_block = false) (hbl : st.block_lines = [])
    (htrim : pyStrip line = line)
    (hkwv : lineKw line = some kw) (hkor : kw = "if" ∨ kw = "elif")
    (hcnd : condOf kw line = some c)
    (hval : astevalV c st.vars = .ok v)
    (hbody : ∀ l ∈ body, pyStrip l = l ∧ simpleLine l = true)
    (hfl : body.length < f)
    (hrun : (truthy v && !st.executed_a_branch) = true)
    (hseq : runSeq 1 body (n + 1 + body.length)
      { st with
        in_block := false, block_type := some kw,
        current_condition := v, block_lines := body } = .ok stA) :
    runLines (f + 1) (line :: (body ++ "\x7d" :: rest)) n st
      = runLines (f + 1) rest (n + 1 + body.length + 1)
          { stA with
            executed_a_branch := true, block_type := none,
            block_lines := [] } := by
  obtain ⟨v0, ib0, bt0, bl0, cc0, eab0, wc0, ex0, ec0, o0, in0⟩ := st
  simp only at hib hbl hrun hval hseq
  subst hib hbl
  simp only [runLines]
  rw [htrim, interp_nonblock f n line _ rfl,
    dispatch_ifelif kw line n _ hkwv hkor,
    doIfElif_ok kw line n _ c v hcnd hval]
  dsimp only
  have hcol := runLines_collect body f (n + 1)
    ⟨v0, true, some kw, [], v, eab0, wc0, ex0, ec0, o0, in0⟩ rfl
    (fun l hl => ⟨(hbody l hl).1, simpleLine_ne l (hbody l hl).2⟩)
  rw [runLines_append body ("\x7d" :: rest) (f + 1) (n + 1) _ _ hcol]
  dsimp only
  simp only [List.nil_append]
  simp only [runLines]
  rw [show pyStrip "\x7d" = "\x7d" from rfl]
  rw [close_ifelif_run f (n + 1 + body.length)
    ⟨v0, true, some kw, body, v, eab0, wc0, ex0, ec0, o0, in0⟩ stA kw
    rfl rfl hkor hrun (fun l hl => (hbody l hl).2) hfl hseq]
  rfl

theorem seg_else_skip (f n : Nat) (line : String)
    (body rest : List String) (st : St)
    (hib : st.in_block = false) (hbl : st.block_lines = [])
    (htrim : pyStrip line = line)
    (hkwv : lineKw line = some "else") (hrest : elseRest line = "\x7b")
    (hbody : ∀ l ∈ body, pyStrip l = l ∧ simpleLine l = true)
    (heb : st.executed_a_branch = true) :
    runLines (f + 1) (line :: (body ++ "\x7d" :: rest)) n st
      = runLines (f + 1) rest (n + 1 + body.length + 1)
          { st with
            in_block := false, block_type := none, block_lines := [],
            executed_a_branch := false } := by
  obtain ⟨v0, ib0, bt0, bl0, cc0, eab0, wc0, ex0, ec0, o0, in0⟩ := st
  simp only at hib hbl heb
  subst hib hbl heb
  simp only [runLines]
  rw [htrim, interp_nonblock f n line _ rfl, dispatch_else line n _ hkwv,
    doElse_ok line n _ hrest]
  dsimp only
  have hcol := runLines_collect body f (n + 1)
    ⟨v0, true, some "else", [], cc0, true, wc0, ex0, ec0, o0, in0⟩ rfl
    (fun l hl => ⟨(hbody l hl).1, simpleLine_ne l (hbody l hl).2⟩)
  rw [runLines_append body ("\x7d" :: rest) (f + 1) (n + 1) _ _ hcol]
  dsimp only
  simp only [List.nil_append]
  simp only [runLines]
  rw [show pyStrip "\x7d" = "\x7d" from rfl]
  rw [close_else_skip f (n + 1 + body.length)
    ⟨v0, true, some "else", body, cc0, true, wc0, ex0, ec0, o0, in0⟩
    rfl rfl rfl]
  rfl

theorem seg_else_run (f n : Nat) (line : String)
    (body rest : List String) (st stC : St)
    (hib : st.in_block = false) (hbl : st.block_lines = [])
    (htrim : pyStrip line = line)
    (hkwv : lineKw line = some "else") (hrest : elseRest line = "\x7b")
    (hbody : ∀ l ∈ body, pyStrip l = l ∧ simpleLine l = true)
    (hfl : body.length < f)
    (heb : st.executed_a_branch = false)
    (hseq : runSeq 1 body (n + 1 + body.length)
      { st with
        in_block := false, block_type := some "else",
        block_lines := body } = .ok stC) :
    runLines (f + 1) (line :: (body ++ "\x7d" :: rest)) n st
      = runLines (f + 1) rest (n + 1 + body.length + 1)
          { stC with
            executed_a_branch := false, block_type := none,
            block_lines := [] } := by
  obtain ⟨v0, ib0, bt0, bl0, cc0, eab0, wc0, ex0, ec0, o0, in0⟩ := st
  simp only at hib hbl heb hseq
  subst hib hbl heb
  simp only [runLines]
  rw [htrim, interp_nonblock f n line _ rfl, dispatch_else line n _ hkwv,
    doElse_ok line n _ hrest]
  dsimp only
  have hcol := runLines_collect body f (n + 1)
    ⟨v0, true, some "else", [], cc0, false, wc0, ex0, ec0, o0, in0⟩ rfl
    (fun l hl => ⟨(hbody l hl).1, simpleLine_ne l (hbody l hl).2⟩)
  rw [runLines_append body ("\x7d" :: rest) (f + 1) (n + 1) _ _ hcol]
  dsimp only
  simp only [List.nil_append]
  simp only [runLines]
  rw [show pyStrip "\x7d" = "\x7d" from rfl]
  rw [close_else_run f (n + 1 + body.length)
    ⟨v0, true, some "else", body, cc0, false, wc0, ex0, ec0, o0, in0⟩ stC
    rfl rfl rfl (fun l hl => (hbody l hl).2) hfl hseq]
  rfl

/-! Claim theorems. -/

/-- C2: in a top-level `if cond { A } elif cond2 { B } else { C }` chain
with simple bodies, exactly one body runs and selection follows the
captured conditions. If cond is truthy only A runs (regardless of the
value of cond2, which is still evaluated at open time); if cond is falsy
and cond2 truthy only B runs; if both are falsy only C runs. The final
state in each case is precisely the state produced by the selected body
alone, with the branch-taken flag (set when an if/elif body ran) reset to
false by the closing else and the block slot cleared. -/
theorem claim2 (f n : Nat) (A B C : List String)
    (ifL elifL elseL cIf cElif : String) (st0 : St) (vIf vElif : Value)
    (h0 : st0.in_block = false) (h1 : st0.executed_a_branch = false)
    (h2 : st0.block_lines = [])
    (hA : ∀ l ∈ A, pyStrip l = l ∧ simpleLine l = true)
    (hB : ∀ l ∈ B, pyStrip l = l ∧ simpleLine l = true)
    (hC : ∀ l ∈ C, pyStrip l = l ∧ simpleLine l = true)
    (hifT : pyStrip ifL = ifL) (helifT : pyStrip elifL = elifL)
    (helseT : pyStrip elseL = elseL)
    (hifK : lineKw ifL = some "if") (hifC : condOf "if" ifL = some cIf)
    (helK : lineKw elifL = some "elif")
    (helC : condOf "elif" elifL = some cElif)
    (hesK : lineKw elseL = some "else") (hesR : elseRest elseL = "\x7b")
    (hIf : astevalV cIf st0.vars = .ok vIf)
    (hfA : A.length < f) (hfB : B.length < f) (hfC : C.length < f) :
    (truthy vIf = true →
      ∀ stA, runSeq 1 A (n + 1 + A.length)
          { st0 with
            block_type := some "if", current_condition := vIf,
            block_lines := A } = .ok stA →
        ∀ vE, astevalV cElif stA.vars = .ok vE →
        runLines (f + 1)
            (ifL :: (A ++ "\x7d" :: elifL :: (B ++ "\x7d" :: elseL ::
              (C ++ ["\x7d"])))) n st0
          = .ok { stA with
              current_condition := vE, executed_a_branch := false,
              block_type := none, block_lines := [] }) ∧
    (truthy vIf = false → astevalV cElif st0.vars = .ok vElif →
      truthy vElif = true →
      ∀ stB, runSeq 1 B (n + 1 + A.length + 1 + 1 + B.length)
          { st0 with
            block_type := some "elif", current_condition := vElif,
            block_lines := B } = .ok stB →
        runLines (f + 1)
            (ifL :: (A ++ "\x7d" :: elifL :: (B ++ "\x7d" :: elseL ::
              (C ++ ["\x7d"])))) n st0
          = .ok { stB with
              executed_a_branch := false, block_type := none,
              block_lines := [] }) ∧
    (truthy vIf = false → astevalV cElif st0.vars = .ok vElif →
      truthy vElif = false →
      ∀ stC, runSeq 1 C (n + 1 + A.length + 1 + 1 + B.length + 1 + 1
            + C.length)
          { st0 with
            block_type := some "else", current_condition := vElif,
            block_lines := C } = .ok stC →
        runLines (f + 1)
            (ifL :: (A ++ "\x7d" :: elifL :: (B ++ "\x7d" :: elseL ::
              (C ++ ["\x7d"])))) n st0
          = .ok { stC with
              executed_a_branch := false, block_type := none,
              block_lines := [] }) := by
  obtain ⟨v0, ib0, bt0, bl0, cc0, eab0, wc0, ex0, ec0, o0, in0⟩ := st0
  simp only at h0 h1 h2 hIf
  subst h0 h1 h2
  refine ⟨?_, ?_, ?_⟩
  · intro htr stA hArun vE hvE
    rw [seg_ifelif_run f n "if" ifL cIf A
      (elifL :: (B ++ "\x7d" :: elseL :: (C ++ ["\x7d"])))
      ⟨v0, false, bt0, [], cc0, false, wc0, ex0, ec0, o0, in0⟩ stA vIf
      rfl rfl hifT hifK (Or.inl rfl) hifC hIf hA hfA
      (by rw [htr]; rfl) hArun]
    have hbe := runSeq_simple_fields A (n + 1 + A.length) _ stA rfl
      (fun l hl => (hA l hl).2) hArun
    obtain ⟨vA, ibA, btA, blA, ccA, eabA, wcA, exA, ecA, oA, inA⟩ := stA
    obtain ⟨e1, e2, e3, e4, e5, e6⟩ := hbe
    simp only at e1 e2 e3 e4 e5 e6 hvE
    subst e1 e2 e3 e4 e5 e6
    dsimp only
    rw [seg_ifelif_skip f (n + 1 + blA.length + 1) "elif" elifL cElif B
      (elseL :: (C ++ ["\x7d"]))
      ⟨vA, false, none, [], ccA, true, wcA, exA, ecA, oA, inA⟩ vE
      rfl rfl helifT helK (Or.inr rfl) helC hvE hB (by simp)]
    dsimp only
    rw [seg_else_skip f (n + 1 + blA.length + 1 + 1 + B.length + 1) elseL C []
      ⟨vA, false, none, [], vE, true, wcA, exA, ecA, oA, inA⟩
      rfl rfl helseT hesK hesR hC rfl]
    simp only [runLines]
  · intro htr hE0 htrE stB hBrun
    simp only at hE0
    rw [seg_ifelif_skip f n "if" ifL cIf A
      (elifL :: (B ++ "\x7d" :: elseL :: (C ++ ["\x7d"])))
      ⟨v0, false, bt0, [], cc0, false, wc0, ex0, ec0, o0, in0⟩ vIf
      rfl rfl hifT hifK (Or.inl rfl) hifC hIf hA (by rw [htr]; rfl)]
    dsimp only
    rw [seg_ifelif_run f (n + 1 + A.length + 1) "elif" elifL cElif B
      (elseL :: (C ++ ["\x7d"]))
      ⟨v0, false, none, [], vIf, false, wc0, ex0, ec0, o0, in0⟩ stB vElif
      rfl rfl helifT helK (Or.inr rfl) helC hE0 hB hfB
      (by rw [htrE]; rfl) hBrun]
    have hbe := runSeq_simple_fields B (n + 1 + A.length + 1 + 1 + B.length)
      _ stB rfl (fun l hl => (hB l hl).2) hBrun
    obtain ⟨vB, ibB, btB, blB, ccB, eabB, wcB, exB, ecB, oB, inB⟩ := stB
    obtain ⟨e1, e2, e3, e4, e5, e6⟩ := hbe
    simp only at e1 e2 e3 e4 e5 e6
    subst e1 e2 e3 e4 e5 e6
    dsimp only
    rw [seg_else_skip f (n + 1 + A.length + 1 + 1 + blB.length + 1) elseL C []
      ⟨vB, false, none, [], ccB, true, wcB, exB, ecB, oB, inB⟩
      rfl rfl helseT hesK hesR hC rfl]
    simp only [runLines]
  · intro htr hE0 htrE stC hCrun
    simp only at hE0
    rw [seg_ifelif_skip f n "if" ifL cIf A
      (elifL :: (B ++ "\x7d" :: elseL :: (C ++ ["\x7d"])))
      ⟨v0, false, bt0, [], cc0, false, wc0, ex0, ec0, o0, in0⟩ vIf
      rfl rfl hifT hifK (Or.inl rfl) hifC hIf hA (by rw [htr]; rfl)]
    dsimp only
    rw [seg_ifelif_skip f (n + 1 + A.length + 1) "elif" elifL cElif B
      (elseL :: (C ++ ["\x7d"]))
      ⟨v0, false, none, [], vIf, false, wc0, ex0, ec0, o0, in0⟩ vElif
      rfl rfl helifT helK (Or.inr rfl) helC hE0 hB (by rw [htrE]; rfl)]
    dsimp only
    rw [seg_else_run f (n + 1 + A.length + 1 + 1 + B.length + 1) elseL C []
      ⟨v0, false, none, [], vElif, false, wc0, ex0, ec0, o0, in0⟩ stC
      rfl rfl helseT hesK hesR hC hfC rfl hCrun]
    simp only [runLines]

/-- C2 (witness): with A = `let a = 1`, B = `let b = 2`, C = `let c = 3`
and a true if-condition, the chain runs exactly A: the final state holds
only `a`, with the branch flag reset and the block slot cleared. -/
theorem claim2_witness :
    runLines 10
        ("if 1 < 2 \x7b" :: (["let a = 1"] ++ "\x7d" :: "elif 1 < 2 \x7b" ::
          (["let b = 2"] ++ "\x7d" :: "else \x7b" ::
            (["let c = 3"] ++ ["\x7d"])))) 0 initSt
      = .ok { initSt with
          vars := [("a", Value.vint 1)],
          current_condition := Value.vbool true } :=
  (claim2 9 0 ["let a = 1"] ["let b = 2"] ["let c = 3"]
      "if 1 < 2 \x7b" "elif 1 < 2 \x7b" "else \x7b" "1 < 2" "1 < 2"
      initSt (Value.vbool true) (Value.vbool true) rfl rfl rfl
      (by decide) (by decide) (by decide) (by rfl) (by rfl) (by rfl)
      (by rfl) (by rfl) (by rfl) (by rfl) (by rfl) (by rfl) (by rfl)
      (by decide) (by decide) (by decide)).1
    rfl
    { initSt with
      vars := [("a", Value.vint 1)], block_type := some "if",
      current_condition := Value.vbool true, block_lines := ["let a = 1"] }
    (by rfl) (Value.vbool true) (by rfl)


/-- C1 (counterexample): the claim "the run never crashes, including when
the undefined reference occurs in a while condition re-check at block
close" is false on the code: `interpret_line` evaluates the stored while
condition at block close outside any handler, so an undefined variable
there propagates as an unhandled evaluator failure and the run crashes. -/
theorem claim1_counterexample :
    runMinipy 10 "while y < 3 \x7b\n\x7d"
      = .crash "Variable \x27y\x27 is not defined" := by rfl

/-- C1 (amended): outside a block no statement ever crashes the run
(`interpret_line` always returns normally), and an expression whose
evaluation fails — in particular one that dereferences a variable absent
from the environment — in a `print` argument, a well-formed `let`
right-hand side, or an `if`/`elif` condition yields exactly one
statement-level `InvalidSyntax` record and execution continues; but an
undefined variable in a while condition re-check at block close crashes
the run (see the counterexample), so the original "never crashes" clause
does not hold there. -/
theorem claim1_amended :
    (∀ (f n : Nat) (l : String) (st : St), st.in_block = false →
      interpretLine (f + 1) l n st = .ok (dispatch l n st)) ∧
    (∀ (f n : Nat) (l m : String) (st : St), st.in_block = false →
      lineKw l = some "print" →
      astevalV (pyStrip (pyDrop 6 l)) st.vars = .error m →
      interpretLine (f + 1) l n st
        = .ok (raiseExc (exceptionslist.getD 1 "") l n st)) ∧
    (∀ (f n : Nat) (l m t0 t1 t2 : String) (st : St), st.in_block = false →
      lineKw l = some "let" →
      splitWsMax2 l = [t0, t1, t2] →
      pyStartsWith t2 "=" = true →
      astevalV (pyStrip (pyDrop 1 t2)) st.vars = .error m →
      interpretLine (f + 1) l n st
        = .ok (raiseExc (exceptionslist.getD 1 "") l n st)) ∧
    (∀ (f n : Nat) (l kw c m : String) (st : St), st.in_block = false →
      lineKw l = some kw → (kw = "if" ∨ kw = "elif") →
      condOf kw l = some c → astevalV c st.vars = .error m →
      interpretLine (f + 1) l n st
        = .ok (raiseExc (exceptionslist.getD 1 "") l n
            { st with in_block := true, block_type := some kw })) := by
  refine ⟨?_, ?_, ?_, ?_⟩
  · intro f n l st hib
    exact interp_nonblock f n l st hib
  · intro f n l m st hib hkw herr
    rw [interp_nonblock f n l st hib, dispatch_print l n st hkw]
    simp only [doPrint, herr]
  · intro f n l m t0 t1 t2 st hib hkw hparts hstart herr
    rw [interp_nonblock f n l st hib, dispatch_let l n st hkw]
    simp only [doLet, hparts]
    rw [if_neg (by simp [hstart])]
    have hgd : ([t0, t1, t2].getD 2 "") = t2 := rfl
    rw [hgd, herr]
  · intro f n l kw c m st hib hkw hk hc herr
    rw [interp_nonblock f n l st hib, dispatch_ifelif kw l n st hkw hk,
      doIfElif_err kw l n st c m hc herr]

/-- C1 (witness): `print y` with `y` undefined records InvalidSyntax and
the interpreter returns normally. -/
theorem claim1_witness :
    interpretLine 1 "print y" 0 initSt
      = .ok (raiseExc (exceptionslist.getD 1 "") "print y" 0 initSt) :=
  claim1_amended.2.1 0 0 "print y" "Variable \x27y\x27 is not defined"
    initSt rfl (by rfl) (by rfl)

set_option maxHeartbeats 4000000 in
/-- C3: the program `while x < 3 \x7b / print x / let x = x + 1 / \x7d`
run from an environment with x = 0 prints exactly 0, 1, 2 in order,
records no exception, and leaves x = 3. -/
theorem claim3 :
    runLines 50 ["while x < 3 \x7b", "print x", "let x = x + 1", "\x7d"] 0
      { initSt with vars := [("x", Value.vint 0)] }
      = .ok { initSt with
          vars := [("x", Value.vint 3)], while_condition := "x < 3",
          output := ["0", "1", "2"] } := by decide

/-- C4: closing a while block whose buffered body is some simple lines
`P` followed by the literal `break` stops the replay at the `break`: the
resulting state is exactly the state after running `P` once, so no later
body line of the pass runs, the condition is not re-evaluated, and no
further iteration happens even though the condition held. -/
theorem claim4 (g2 n : Nat) (st stP : St) (P Q : List String) (v : Value)
    (hib : st.in_block = true) (hbt : st.block_type = some "while")
    (hbl : st.block_lines = P ++ "break" :: Q)
    (hP : ∀ l ∈ P, simpleLine l = true ∧ l ≠ "break")
    (hcond : astevalV st.while_condition st.vars = .ok v)
    (htr : truthy v = true)
    (hfuel : P.length < g2)
    (hseq : runSeq 1 P n { st with in_block := false } = .ok stP) :
    interpretLine (g2 + 1 + 1) "\x7d" n st = .ok stP :=
  close_while_break g2 n st stP P Q v hib hbt hbl hP hcond htr hfuel hseq

/-- C4 (witness): a while block with body `let y = 1; break; let z = 9`
and the always-true condition `1 < 2` terminates at the `break` having
run only the first line. -/
theorem claim4_witness :
    interpretLine 5 "\x7d" 0
      { initSt with
        in_block := true, block_type := some "while",
        block_lines := ["let y = 1", "break", "let z = 9"],
        while_condition := "1 < 2" }
      = .ok { initSt with
          vars := [("y", Value.vint 1)], block_type := some "while",
          block_lines := ["let y = 1", "break", "let z = 9"],
          while_condition := "1 < 2" } :=
  claim4 3 0 _ _ ["let y = 1"] ["let z = 9"] (.vbool true) rfl rfl rfl
    (by decide) (by rfl) rfl (by decide) (by rfl)

/-- C5 (failing input): after the program `let x = 0 / while x < 1 \x7b /
break / \x7d`, the closing brace was processed with a block active and
the replay exited through `break`; the claim says the block state is then
fully cleared, but the final state keeps `block_type = some "while"` and
`block_lines = ["break"]` — only the active flag is reset. The early
`return` on `break` skips `block_lines.clear()` / `block_type = None`. -/
theorem claim5_bug_eval :
    runMinipy 20 "let x = 0\nwhile x < 1 \x7b\nbreak\n\x7d"
      = .ok { initSt with
          vars := [("x", Value.vint 0)], block_type := some "while",
          block_lines := ["break"], while_condition := "x < 1" } := by rfl

/-- C6: an `if`, `elif` or `while` line outside a block whose remainder
does not end with the opening brace raises exactly one
`MissingOpeningBrace` record and changes nothing else: the variable
environment is untouched (the condition is never evaluated), and no
block is opened. -/
theorem claim6 (f n : Nat) (line kw : String) (st : St)
    (hib : st.in_block = false)
    (hkw : lineKw line = some kw)
    (hk : kw = "if" ∨ kw = "elif" ∨ kw = "while")
    (hnb : condOf kw line = none) :
    interpretLine (f + 1) line n st
      = .ok { st with
          exceptioncount := st.exceptioncount + 1,
          raisedexceptions := st.raisedexceptions
            ++ [excMsg (exceptionslist.getD 3 "") line n] } := by
  rw [interp_nonblock f n line st hib, dispatch_some kw line n st hkw]
  rcases hk with rfl | rfl | rfl
  · show Res.ok (doIfElif "if" line n st) = _
    rw [doIfElif_brace "if" line n st hnb]
    rfl
  · show Res.ok (doIfElif "elif" line n st) = _
    rw [doIfElif_brace "elif" line n st hnb]
    rfl
  · show Res.ok (doWhileOpen line n st) = _
    rw [doWhileOpen_brace line n st hnb]
    rfl

/-- C6 (witness): `if x` (no brace) from the fresh state records exactly
one MissingOpeningBrace and leaves everything else unchanged. -/
theorem claim6_witness :
    interpretLine 1 "if x" 0 initSt
      = .ok { initSt with
          exceptioncount := 1,
          raisedexceptions := [excMsg (exceptionslist.getD 3 "") "if x" 0] } :=
  claim6 0 0 "if x" "if" initSt rfl (by rfl) (Or.inl rfl) (by rfl)

/-- C7: a division whose two operands evaluate to integers produces a
float tagged value equal to the exact quotient of the operands — never
an integer truncation (the divisor must be nonzero for a result to
exist; a zero divisor raises instead). -/
theorem claim7 (e1 e2 : Expr) (env : Env) (a b : Int)
    (h1 : (evalST e1 env).1 = .ok (.vint a))
    (h2 : (evalST e2 env).1 = .ok (.vint b))
    (hb : b ≠ 0) :
    (evalST (.binop .div e1 e2) env).1
      = .ok (.vfloat ((a : Rat) / (b : Rat))) := by
  have hp1 : evalST e1 env = (Except.ok (Value.vint a), env) :=
    Prod.ext h1 (evalST_env e1 env)
  have hp2 : evalST e2 env = (Except.ok (Value.vint b), env) :=
    Prod.ext h2 (evalST_env e2 env)
  simp only [evalST, hp1]
  simp only [hp2]
  simp only [pyBin, pyDiv, intLike?, numQ?]
  rw [if_neg (by exact_mod_cast hb)]

/-- C7 (witness): `7 / 2` evaluates to the float 3.5, not 3. -/
theorem claim7_witness :
    (evalST (.binop .div (.const (.vint 7)) (.const (.vint 2))) []).1
      = .ok (.vfloat ((7 : Rat) / (2 : Rat))) :=
  claim7 (.const (.vint 7)) (.const (.vint 2)) [] 7 2 rfl rfl (by decide)

/-- C8: evaluating any expression text against any environment returns
the environment unchanged — the evaluator threads the dict through the
whole traversal and no visitor case adds, removes or modifies a
binding, whether evaluation succeeds or fails. -/
theorem claim8 : ∀ (txt : String) (env : Env), (asteval txt env).2 = env := by
  intro txt env
  unfold asteval
  cases parseExprText txt
  · rfl
  · exact evalST_env _ env

/-- C9: an `if`/`elif` line with a trailing brace whose condition fails
to evaluate records an `InvalidSyntax` exception AND still enters
block-collecting state: the resulting state has the block flags set
(`in_block = true`, `block_type = some kw`) while `current_condition`
keeps its previous, stale value — the state equality below records the
entire effect, so subsequent lines are buffered and replay is governed
by the stale snapshot. -/
theorem claim9 (f n : Nat) (line kw c m : String) (st : St)
    (hib : st.in_block = false)
    (hkw : lineKw line = some kw)
    (hk : kw = "if" ∨ kw = "elif")
    (hc : condOf kw line = some c)
    (he : astevalV c st.vars = .error m) :
    interpretLine (f + 1) line n st
      = .ok (raiseExc (exceptionslist.getD 1 "") line n
          { st with in_block := true, block_type := some kw }) := by
  rw [interp_nonblock f n line st hib, dispatch_ifelif kw line n st hkw hk,
    doIfElif_err kw line n st c m hc he]

/-- C9 (witness): `if y \x7b` with `y` undefined raises InvalidSyntax
and opens the block anyway. -/
theorem claim9_witness :
    interpretLine 1 "if y \x7b" 0 initSt
      = .ok (raiseExc (exceptionslist.getD 1 "") "if y \x7b" 0
          { initSt with in_block := true, block_type := some "if" }) :=
  claim9 0 0 "if y \x7b" "if" "y" "Variable \x27y\x27 is not defined"
    initSt rfl (by rfl) (Or.inl rfl) (by rfl) (by rfl)

/-- C10: the exception count always equals the number of logged records:
the fresh run state starts at zero with an empty log; every normal
return of `interpret_line` grows the log by exactly the amount added to
the count and never removes records; hence at the end of any run the
reported status code equals the number of exception records. -/
theorem claim10 :
    (initSt.exceptioncount = 0 ∧ initSt.raisedexceptions = []) ∧
    (∀ (f n : Nat) (l : String) (st st1 : St),
      interpretLine f l n st = .ok st1 →
      st1.exceptioncount + st.raisedexceptions.length
        = st.exceptioncount + st1.raisedexceptions.length ∧
      ∃ new, st1.raisedexceptions = st.raisedexceptions ++ new) ∧
    (∀ (f : Nat) (code : String) (st1 : St), runMinipy f code = .ok st1 →
      st1.exceptioncount = st1.raisedexceptions.length) := by
  refine ⟨⟨rfl, rfl⟩, ?_, ?_⟩
  · intro f n l st st1 h
    exact (stepExcOK f).1 l n st st1 h
  · intro f code st1 h
    obtain ⟨hc, new, hn⟩ := runLinesExcOK (pySplitLines code) f 0 initSt st1 h
    simp only [initSt, List.length_nil] at hc
    omega

/-- C10 (witness): one unknown-command line appends exactly one record
and bumps the count by one; a one-line bad run exits with status 1 and
one record. -/
theorem claim10_witness :
    ((raiseExc (exceptionslist.getD 0 "") "bogus" 0 initSt).exceptioncount
        + initSt.raisedexceptions.length
      = initSt.exceptioncount
        + (raiseExc (exceptionslist.getD 0 "")
            "bogus" 0 initSt).raisedexceptions.length ∧
      ∃ new, (raiseExc (exceptionslist.getD 0 "")
          "bogus" 0 initSt).raisedexceptions
        = initSt.raisedexceptions ++ new) ∧
    (∀ st1, runMinipy 2 "bogus" = .ok st1 →
      st1.exceptioncount = st1.raisedexceptions.length) := by
  constructor
  · exact claim10.2.1 1 0 "bogus" initSt _ (by rfl)
  · intro st1 h
    exact claim10.2.2 2 "bogus" st1 h

end Nano
